import Mathlib

/-!
# Stock prediction core

A shallow embedding of the forecasting core of the repository
(`Stock.h`, `PredictionAlgorithm.cpp`, `FileHandler.cpp`) together with
theorems about it.

Modelling conventions

* `double` values are exact rationals (`Rat`): sums, products and quotients
  are computed without rounding, and the order comparisons of `validate`
  are the comparisons of `Rat`.
* `int` values are integers (`Int`); a conversion of an `int` to `size_t`
  is reduction modulo `2 ^ 64`.
* A C++ exception is an `Except.error` carrying the error kind of the
  throw site.
* A member function that mutates `this` and may throw returns the object
  after the call together with the outcome of the call.
-/

set_option autoImplicit false

/-- Error kinds, one for each throw site of the core.

* `NotFound`: `readStockData`, "Could not open file".
* `WriteFailed`: `writePredictions`, "Could not create file".
* `UnknownAlgorithm`: `StockPredictor::predict`, "Unknown algorithm".
* `InvalidParameter`: the `std::invalid_argument` of the two `validate` members.
* `InsufficientData`: `MovingAverageAlgorithm::predict`.
* `NoData`: `ExponentialMovingAverageAlgorithm::predict`.
* `ConversionFailed`: an exception of `std::stod` that leaves `readStockData`. -/
inductive Error where
  | NotFound
  | WriteFailed
  | UnknownAlgorithm
  | InvalidParameter
  | InsufficientData
  | NoData
  | ConversionFailed
  deriving DecidableEq, Repr

/-- One trading day (`class StockData` of `Stock.h`). The field `open_` is the
member `open`. -/
structure StockData where
  symbol : String
  date : String
  open_ : Rat
  high : Rat
  low : Rat
  close : Rat
  volume : Rat
  deriving DecidableEq, Repr

/-- The parameter object handed to `configure` (a JSON object of the library
`nlohmann::json`): for each key the members look up, the value that
`params[key].get<int>()`, respectively `get<double>()`, yields when
`params.contains(key)`, and `none` when the key is absent. -/
structure Params where
  window_size : Option Int
  alpha : Option Rat
  deriving DecidableEq, Repr

/-- Conversion of an `int` to `size_t` (64 bit). -/
def toSizeT (z : Int) : Nat := (z % 2 ^ 64).toNat

/-- Library `std::accumulate(v.begin() + lo, v.begin() + hi, init)`: the elements at
positions `lo, ..., hi - 1` are added to `init` from left to right. -/
def accumulate (v : List Rat) (lo hi : Nat) (init : Rat) : Rat :=
  ((v.drop lo).take (hi - lo)).foldl (fun acc x => acc + x) init

namespace PredictionAlgorithm

/-- Source `PredictionAlgorithm::getClosingPrices`: a loop of `push_back`. -/
def getClosingPrices (data : List StockData) : List Rat :=
  data.foldl (fun prices stock => prices ++ [stock.close]) []

end PredictionAlgorithm

/-- Source `class MovingAverageAlgorithm`: the one mutable member. -/
structure MovingAverageAlgorithm where
  windowSize : Int
  deriving DecidableEq, Repr

namespace MovingAverageAlgorithm

def MIN_WINDOW : Int := 2

def MAX_WINDOW : Int := 200

/-- Source `MovingAverageAlgorithm::validate`. -/
def validate (a : MovingAverageAlgorithm) : Except Error Unit :=
  if a.windowSize < MIN_WINDOW ∨ a.windowSize > MAX_WINDOW then
    .error Error.InvalidParameter
  else
    .ok ()

/-- The constructor: the member is initialised, then `validate()` runs; an
exception of `validate` means no object comes into being. -/
def create (window : Int) : Except Error MovingAverageAlgorithm :=
  match validate ⟨window⟩ with
  | .ok _ => .ok ⟨window⟩
  | .error e => .error e

/-- Source `MovingAverageAlgorithm::configure`: the member is overwritten when the key
is present, then `validate()` runs. The first component is the object after
the call, the second the outcome of the call. -/
def configure (a : MovingAverageAlgorithm) (params : Params) :
    MovingAverageAlgorithm × Except Error Unit :=
  let a1 : MovingAverageAlgorithm :=
    match params.window_size with
    | some v => ⟨v⟩
    | none => a
  (a1, validate a1)

/-- Source `MovingAverageAlgorithm::getParameters`: the JSON object as its list of
key and value pairs, in the order of the source. -/
def getParameters (a : MovingAverageAlgorithm) : List (String × Int) :=
  [("window_size", a.windowSize), ("min_window", MIN_WINDOW), ("max_window", MAX_WINDOW)]

/-- The `for` loop of `MovingAverageAlgorithm::predict`, entered with the
current value of `i` and of `predictions`. In `i - windowSize` the window is
converted to `size_t`; the difference does not wrap, since `i` starts at that
converted value and only grows, and the increment of `i` does not wrap, since
`i` never exceeds the size of a vector by more than one. -/
def predictLoop (prices : List Rat) (windowSize : Int) (i : Nat) (predictions : List Rat) :
    List Rat :=
  if i ≤ prices.length then
    let sum := accumulate prices (i - toSizeT windowSize) i 0
    predictLoop prices windowSize (i + 1) (predictions ++ [sum / (windowSize : Rat)])
  else
    predictions
termination_by prices.length + 1 - i

/-- Source `MovingAverageAlgorithm::predict`. The call of `reserve` does not
change the result and is left out. -/
def predict (a : MovingAverageAlgorithm) (data : List StockData) : Except Error (List Rat) :=
  let prices := PredictionAlgorithm.getClosingPrices data
  if prices.length < toSizeT a.windowSize then
    .error Error.InsufficientData
  else
    .ok (predictLoop prices a.windowSize (toSizeT a.windowSize) [])

end MovingAverageAlgorithm

/-- Source `class ExponentialMovingAverageAlgorithm`: the one mutable member. -/
structure ExponentialMovingAverageAlgorithm where
  smoothingFactor : Rat
  deriving DecidableEq, Repr

namespace ExponentialMovingAverageAlgorithm

def MIN_ALPHA : Rat := 1 / 10000

def MAX_ALPHA : Rat := 1

/-- Source `ExponentialMovingAverageAlgorithm::validate`. -/
def validate (a : ExponentialMovingAverageAlgorithm) : Except Error Unit :=
  if a.smoothingFactor < MIN_ALPHA ∨ a.smoothingFactor > MAX_ALPHA then
    .error Error.InvalidParameter
  else
    .ok ()

/-- The constructor: the member is initialised, then `validate()` runs. -/
def create (alpha : Rat) : Except Error ExponentialMovingAverageAlgorithm :=
  match validate ⟨alpha⟩ with
  | .ok _ => .ok ⟨alpha⟩
  | .error e => .error e

/-- Source `ExponentialMovingAverageAlgorithm::configure`: overwrite when the key is
present, then `validate()`. Object after the call and outcome of the call. -/
def configure (a : ExponentialMovingAverageAlgorithm) (params : Params) :
    ExponentialMovingAverageAlgorithm × Except Error Unit :=
  let a1 : ExponentialMovingAverageAlgorithm :=
    match params.alpha with
    | some v => ⟨v⟩
    | none => a
  (a1, validate a1)

/-- Source `ExponentialMovingAverageAlgorithm::getParameters`. -/
def getParameters (a : ExponentialMovingAverageAlgorithm) : List (String × Rat) :=
  [("alpha", a.smoothingFactor), ("min_alpha", MIN_ALPHA), ("max_alpha", MAX_ALPHA)]

/-- The `for` loop of `ExponentialMovingAverageAlgorithm::predict`: `rest`
holds `prices[i], prices[i+1], ...`, and `ema` and `predictions` are the
current values of the two locals. -/
def predictLoop (smoothingFactor : Rat) : List Rat → Rat → List Rat → List Rat
  | [], _, predictions => predictions
  | p :: rest, ema, predictions =>
    let ema1 := smoothingFactor * p + (1 - smoothingFactor) * ema
    predictLoop smoothingFactor rest ema1 (predictions ++ [ema1])

/-- Source `ExponentialMovingAverageAlgorithm::predict`: `p0` is `prices[0]`, the
seed of `ema` and the first prediction. -/
def predict (a : ExponentialMovingAverageAlgorithm) (data : List StockData) :
    Except Error (List Rat) :=
  match PredictionAlgorithm.getClosingPrices data with
  | [] => .error Error.NoData
  | p0 :: rest => .ok (predictLoop a.smoothingFactor rest p0 [p0])

end ExponentialMovingAverageAlgorithm

/-- Spec side: the arithmetic mean of a list of values. -/
def arithmeticMean (xs : List Rat) : Rat := xs.sum / (xs.length : Rat)

/-- Spec side: the closing prices of a series. -/
def closes (data : List StockData) : List Rat := data.map (fun s => s.close)

/-- A series with the given closing prices (the other fields are fixed). -/
def seriesOf (cs : List Rat) : List StockData :=
  cs.map (fun c => ⟨"TEST", "2024-01-01", c, c, c, c, 0⟩)


/-- A run of `configure` calls on a moving average, each one made on the object
the previous one left behind, whether it returned or threw: the object after
the run and the outcome of the last call (`ok` for the empty run). -/
def MovingAverageAlgorithm.configureAll (a : MovingAverageAlgorithm) (calls : List Params) :
    MovingAverageAlgorithm × Except Error Unit :=
  calls.foldl (fun st params => st.1.configure params) (a, .ok ())

/-- A run of `configure` calls on an exponential average, as for the moving
average. -/
def ExponentialMovingAverageAlgorithm.configureAll (a : ExponentialMovingAverageAlgorithm)
    (calls : List Params) : ExponentialMovingAverageAlgorithm × Except Error Unit :=
  calls.foldl (fun st params => st.1.configure params) (a, .ok ())

/-! ## Storage -/

/-- What an input stream sees of the file system: the content of the file a
path names, or `none` when the file cannot be opened. Several paths may name
one file; `Storage` below keeps the files apart from the paths. -/
abbrev FileSystem := String → Option (List Char)

/-- The characters `std::getline(stream, line, delim)` stores in `line` when the
unread characters of the stream are `s`: those before the first `delim`. -/
def lineOf (delim : Char) (s : List Char) : List Char :=
  s.takeWhile (fun c => c != delim)

/-- The unread characters of the stream after `std::getline(stream, line, delim)`:
the line and the delimiter that ends it are consumed. -/
def afterLine (delim : Char) (s : List Char) : List Char :=
  (s.dropWhile (fun c => c != delim)).drop 1

/-- Library `std::filesystem::path::operator/=` followed by `string()`, for the generic
(POSIX) path format: an absolute right operand replaces the path, otherwise it
is appended, after a separator unless the path is empty or ends in one. -/
def pathAppend (p q : String) : String :=
  if q.data.head? = some '/' then q
  else if p.data = [] ∨ p.data.getLast? = some '/' then p ++ q
  else p ++ "/" ++ q

/-- Library `std::string::find(token) != std::string::npos` is `(find s token).isSome`:
the least position at which `token` starts in `s`. -/
def find : List Char → List Char → Option Nat
  | [], token => if token = [] then some 0 else none
  | c :: cs, token =>
    if token.isPrefixOf (c :: cs) then some 0 else (find cs token).map (fun k => k + 1)

namespace FileHandler

/-- Source `FileHandler::buildFilePath`. -/
def buildFilePath (dataDirectory symbol : String) (isPrediction : Bool) : String :=
  if isPrediction then pathAppend dataDirectory (symbol ++ "_predictions.csv")
  else pathAppend dataDirectory (symbol ++ ".csv")

/-- The `while` loop of `FileHandler::splitCSVLine`: `ss` holds the unread
characters of the string stream. `std::getline` fails exactly when no
character is left, and otherwise extracts up to and including the next comma. -/
def splitLoop (ss : List Char) (result : List (List Char)) : List (List Char) :=
  if ss = [] then result
  else splitLoop (afterLine ',' ss) (result ++ [lineOf ',' ss])
termination_by ss.length
decreasing_by
  have h := (List.dropWhile_sublist (fun c => c != ',') (l := ss)).length_le
  cases ss with
  | nil => contradiction
  | cons c cs =>
    simp only [afterLine, List.length_drop, List.length_cons] at h ⊢
    omega

/-- Source `FileHandler::splitCSVLine`. -/
def splitCSVLine (line : List Char) : List (List Char) :=
  splitLoop line []

/-- Source `FileHandler::validateDataEntry`, over the library function `std::stod`
(`none` when it throws): the loop calls `stod` on the entries 1 to 5 and any
exception makes the result `false`. -/
def validateDataEntry (stod : List Char → Option Rat) (entry : List (List Char)) : Bool :=
  if entry.length ≠ 6 then false
  else (entry.drop 1).all (fun field => (stod field).isSome)

/-- The `while` loop of `FileHandler::readStockData`: `file` holds the unread
characters of the file stream and `data` the records collected so far. The
entries `parts[0]` to `parts[5]` exist when `validateDataEntry` holds; an
exception of `std::stod` in the construction of the record is not caught. -/
def readLoop (stod : List Char → Option Rat) (symbol : String) (file : List Char)
    (data : List StockData) : Except Error (List StockData) :=
  if file = [] then .ok data
  else
    let parts := splitCSVLine (lineOf '\n' file)
    if validateDataEntry stod parts then
      match stod (parts.getD 1 []), stod (parts.getD 2 []), stod (parts.getD 3 []),
          stod (parts.getD 4 []), stod (parts.getD 5 []) with
      | some o, some h, some l, some c, some v =>
        readLoop stod symbol (afterLine '\n' file)
          (data ++ [⟨symbol, String.mk (parts.getD 0 []), o, h, l, c, v⟩])
      | _, _, _, _, _ => .error Error.ConversionFailed
    else
      readLoop stod symbol (afterLine '\n' file) data
termination_by file.length
decreasing_by
  all_goals
    have h := (List.dropWhile_sublist (fun c => c != '\n') (l := file)).length_le
    cases file with
    | nil => contradiction
    | cons c cs =>
      simp only [afterLine, List.length_drop, List.length_cons] at h ⊢
      omega

/-- Source `FileHandler::readStockData`: the first `std::getline` skips the header (on
an empty file it fails and the stream stays at its end). -/
def readStockData (stod : List Char → Option Rat) (fs : FileSystem)
    (dataDirectory symbol : String) : Except Error (List StockData) :=
  match fs (buildFilePath dataDirectory symbol false) with
  | none => .error Error.NotFound
  | some content => readLoop stod symbol (afterLine '\n' content) []

/-- Source `FileHandler::validateCSVFormat`: `header` is the first line, or stays
empty when `std::getline` fails on an empty file. -/
def validateCSVFormat (fs : FileSystem) (filePath : String) : Bool :=
  match fs filePath with
  | none => false
  | some content =>
    let header := lineOf '\n' content
    (find header "Date".data).isSome &&
    (find header "Open".data).isSome &&
    (find header "High".data).isSome &&
    (find header "Low".data).isSome &&
    (find header "Close".data).isSome &&
    (find header "Volume".data).isSome

end FileHandler

/-- The value of a run of decimal digits. -/
def digitsValue (ds : List Char) : Nat :=
  ds.foldl (fun acc c => 10 * acc + (c.toNat - 48)) 0

/-- A model of `std::stod` on decimal numerals without exponent, used for
concrete examples: white space is skipped, then an optional sign, a run of
digits and an optional fraction are read, and whatever follows is ignored;
`none` (the library throws `std::invalid_argument`) when there is no digit to
read. Exponents, hexadecimal numerals, infinities and NaN are not covered. -/
def stodDecimal (s : List Char) : Option Rat :=
  let t := s.dropWhile (fun c => c == ' ' || c == '\t' || c == '\n' || c == '\r')
  let neg := t.head? == some '-'
  let u := if t.head? == some '-' || t.head? == some '+' then t.drop 1 else t
  let ip := u.takeWhile (fun c => c.isDigit)
  let r := u.dropWhile (fun c => c.isDigit)
  let fp := if r.head? == some '.' then (r.drop 1).takeWhile (fun c => c.isDigit) else []
  if ip = [] ∧ fp = [] then none
  else
    let q : Rat := (digitsValue (ip ++ fp) : Rat) / (10 : Rat) ^ fp.length
    some (if neg then -q else q)

/-! ## Spec side of the storage format -/

/-- Spec side: the file whose lines are `lines`, each ended by a line feed,
followed by `last`, the characters after the final line feed (`[]` when the
file ends in a line feed or is empty). -/
def fileOf (lines : List (List Char)) (last : List Char) : List Char :=
  lines.foldr (fun l acc => l ++ '\n' :: acc) last

/-- Spec side: the record a data line stands for: the line splits into exactly
six fields and fields 2 to 6 parse as floating point; `none` for every other
line. -/
def recordOf (stod : List Char → Option Rat) (symbol : String) (line : List Char) :
    Option StockData :=
  match FileHandler.splitCSVLine line with
  | [d, o, h, l, c, v] =>
    match stod o, stod h, stod l, stod c, stod v with
    | some o1, some h1, some l1, some c1, some v1 => some ⟨symbol, String.mk d, o1, h1, l1, c1, v1⟩
    | _, _, _, _, _ => none
  | _ => none

/-- Spec side: `token` occurs in `s` as a substring. -/
def occursIn (token s : List Char) : Prop :=
  ∃ before after : List Char, s = before ++ token ++ after

/-- The six column tokens `validateCSVFormat` looks for. -/
def requiredTokens : List (List Char) :=
  ["Date".data, "Open".data, "High".data, "Low".data, "Close".data, "Volume".data]

/-- Spec side: the number of delimiter commas of a line. -/
def commaCount (line : List Char) : Nat := line.count ','

/-! ## Sample inputs -/

/-- A storage file: a header, a well-formed row, a row of five fields, a row
whose close is not numeric, and a second well-formed row. -/
def sampleLines : List (List Char) :=
  ["Date,Open,High,Low,Close,Volume".data,
   "2024-01-01,1,2,3,4,5".data,
   "2024-01-02,1,2,3,4".data,
   "2024-01-03,1,2,3,x,5".data,
   "2024-01-04,2,3,4,5,6.5".data]

/-- A file system holding the sample file for the symbol `AAPL` in the
directory `data`, and a file with a permuted header. -/
def sampleFs : FileSystem := fun path =>
  if path = "data/AAPL.csv" then some (fileOf sampleLines [])
  else if path = "data/header.csv" then
    some ("Volume,Date,Close,High,Low,Open,Extra".data ++ "\n1,2,3,4,5,6,7\n".data)
  else if path = "data/short.csv" then
    some ("Date,Open,High,Low,Close".data ++ [])
  else none

/-! ## Orchestrator -/

/-- An attempt to open a file: by the input stream of `readStockData` or by the
output stream of `writePredictions`. -/
inductive Access where
  | openRead (path : String)
  | openWrite (path : String)
  deriving DecidableEq, Repr

/-- The storage the file handler works on.

* `resolve` is the path resolution of the operating system: the file a path
  names, given by one canonical path. Paths that differ as strings may name
  the same file (`data/./X.csv`, `data//X.csv`, `data/../data/X.csv`, links).
* `disk` is the content of each file that can be opened for reading.
* `canCreate` tells for each path whether an output stream can create or
  truncate the file it names.
* `log` records the attempts to open a file made so far. -/
structure Storage where
  resolve : String → String
  disk : String → Option (List Char)
  canCreate : String → Bool
  log : List Access

/-- What the input streams see of a storage: a path is resolved, then the file
it names is opened. -/
def Storage.files (st : Storage) : FileSystem :=
  fun path => st.disk (st.resolve path)

/-- The text `file << pred << "\n"` and its neighbours write for one loop of
`writePredictions`, appended to the text written so far; `fmt` is the
library's formatting of a `double` by `operator<<`. -/
def writeRow (fmt : Rat → List Char) (written : List Char) (pred : Rat) : List Char :=
  written ++ "YYYY-MM-DD,".data ++ fmt pred ++ "\n".data

namespace FileHandler

/-- Source `FileHandler::readStockData` on a storage: the attempt to open the file is
recorded, the storage is otherwise left as it is. -/
def readStockDataOn (stod : List Char → Option Rat) (st : Storage)
    (dataDirectory symbol : String) : Storage × Except Error (List StockData) :=
  (⟨st.resolve, st.disk, st.canCreate,
      st.log ++ [Access.openRead (buildFilePath dataDirectory symbol false)]⟩,
   readStockData stod st.files dataDirectory symbol)

/-- Source `FileHandler::writePredictions`: the output stream creates or truncates the
file its path names; when it cannot be opened the member throws and no file
is touched, otherwise the header and one row for each prediction are written
to that file, which every path that names it then shows. -/
def writePredictions (fmt : Rat → List Char) (st : Storage) (dataDirectory symbol : String)
    (predictions : List Rat) : Storage × Except Error Unit :=
  let filePath := buildFilePath dataDirectory symbol true
  let log1 := st.log ++ [Access.openWrite filePath]
  if st.canCreate filePath then
    let content := predictions.foldl (writeRow fmt) "Date,Predicted_Close\n".data
    (⟨st.resolve,
      fun file => if file = st.resolve filePath then some content else st.disk file,
      st.canCreate, log1⟩,
     .ok ())
  else
    (⟨st.resolve, st.disk, st.canCreate, log1⟩, .error Error.WriteFailed)

end FileHandler

/-- The objects a `std::unique_ptr<PredictionAlgorithm>` of the repository can own:
the two classes that derive from `PredictionAlgorithm`. -/
inductive PredictionAlgorithm where
  | movingAverage (a : MovingAverageAlgorithm)
  | exponentialMovingAverage (a : ExponentialMovingAverageAlgorithm)
  deriving DecidableEq, Repr

namespace PredictionAlgorithm

/-- The virtual member `predict`. -/
def predict : PredictionAlgorithm → List StockData → Except Error (List Rat)
  | movingAverage a, data => a.predict data
  | exponentialMovingAverage a, data => a.predict data

/-- The virtual member `getName`. -/
def getName : PredictionAlgorithm → String
  | movingAverage _ => "SMA"
  | exponentialMovingAverage _ => "EMA"

/-- The virtual member `validate`. -/
def validate : PredictionAlgorithm → Except Error Unit
  | movingAverage a => a.validate
  | exponentialMovingAverage a => a.validate

end PredictionAlgorithm

/-- Library `std::map<std::string, V>::find`: the value stored under `key`, `none` for
`end()`. The map is the list of its entries in the order of iteration. -/
def mapFind {V : Type} : List (String × V) → String → Option V
  | [], _ => none
  | (k, v) :: rest, key => if key = k then some v else mapFind rest key

/-- Library `map[key] = value` on a `std::map<std::string, V>`: the entry of `key` is
replaced, or a new entry is put at its place in the order of the keys, the
lexicographic order of their characters. -/
def mapAssign {V : Type} : List (String × V) → String → V → List (String × V)
  | [], key, value => [(key, value)]
  | (k, v) :: rest, key, value =>
    if key.data < k.data then (key, value) :: (k, v) :: rest
    else if key = k then (key, value) :: rest
    else (k, v) :: mapAssign rest key value

/-- Source `class StockPredictor`: the data directory of its file handler and the map
`algorithms`. -/
structure StockPredictor where
  dataDirectory : String
  algorithms : List (String × PredictionAlgorithm)
  deriving DecidableEq, Repr

namespace StockPredictor

/-- Source `StockPredictor::registerAlgorithm`. -/
def registerAlgorithm (sp : StockPredictor) (name : String) (algorithm : PredictionAlgorithm) :
    StockPredictor :=
  ⟨sp.dataDirectory, mapAssign sp.algorithms name algorithm⟩

/-- Source `StockPredictor::getAvailableAlgorithms`: a loop of `push_back` over the map. -/
def getAvailableAlgorithms (sp : StockPredictor) : List String :=
  sp.algorithms.foldl (fun result algo => result ++ [algo.1]) []

/-- The constructor with `StockPredictor::initializeAlgorithms`: an exception of one
of the two algorithm constructors leaves the constructor. -/
def create (dataDir : String) : Except Error StockPredictor :=
  match MovingAverageAlgorithm.create 5 with
  | .error e => .error e
  | .ok sma =>
    let sp1 := registerAlgorithm ⟨dataDir, []⟩ "SMA" (.movingAverage sma)
    match ExponentialMovingAverageAlgorithm.create (1 / 5) with
    | .error e => .error e
    | .ok ema => .ok (registerAlgorithm sp1 "EMA" (.exponentialMovingAverage ema))

/-- The statements of `StockPredictor::predict` after the lookup, with the
algorithm the iterator points to: read, compute, write, return. -/
def predictWith (stod : List Char → Option Rat) (fmt : Rat → List Char)
    (dataDirectory : String) (algo : PredictionAlgorithm) (st : Storage) (symbol : String) :
    Storage × Except Error (List Rat) :=
  match FileHandler.readStockDataOn stod st dataDirectory symbol with
  | (st1, .error e) => (st1, .error e)
  | (st1, .ok data) =>
    match algo.predict data with
    | .error e => (st1, .error e)
    | .ok predictions =>
      match FileHandler.writePredictions fmt st1 dataDirectory symbol predictions with
      | (st2, .error e) => (st2, .error e)
      | (st2, .ok _) => (st2, .ok predictions)

/-- Source `StockPredictor::predict`: the storage after the call and its outcome. -/
def predict (stod : List Char → Option Rat) (fmt : Rat → List Char) (sp : StockPredictor)
    (st : Storage) (symbol algorithm : String) : Storage × Except Error (List Rat) :=
  match mapFind sp.algorithms algorithm with
  | none => (st, .error Error.UnknownAlgorithm)
  | some algo => predictWith stod fmt sp.dataDirectory algo st symbol

end StockPredictor

/-! ## Spec side of the orchestrator -/

/-- Spec side: the prediction artifact of a sequence of values: the header line
and one row for each value, the placeholder date followed by the value. -/
def artifactOf (fmt : Rat → List Char) (values : List Rat) : List Char :=
  "Date,Predicted_Close\n".data
    ++ (values.map (fun v => "YYYY-MM-DD,".data ++ fmt v ++ "\n".data)).flatten

/-- Spec side: the least value of a list of prices (0 for the empty list). -/
def leastOf : List Rat → Rat
  | [] => 0
  | c :: cs => cs.foldl min c

/-- Spec side: the greatest value of a list of prices (0 for the empty list). -/
def greatestOf : List Rat → Rat
  | [] => 0
  | c :: cs => cs.foldl max c

/-! ## Sample storage -/

/-- A formatting of values, used for concrete examples: the numerator, and
the denominator after a slash when it is not 1. -/
def sampleFmt (q : Rat) : List Char :=
  (if q.num < 0 then ['-'] else []) ++ Nat.toDigits 10 q.num.natAbs
    ++ (if q.den = 1 then [] else '/' :: Nat.toDigits 10 q.den)

/-- The lines of a storage file with the closing prices 1, 2, 3, 4, 5. -/
def fiveLines : List (List Char) :=
  ["Date,Open,High,Low,Close,Volume".data,
   "2024-01-01,1,1,1,1,10".data,
   "2024-01-02,2,2,2,2,10".data,
   "2024-01-03,3,3,3,3,10".data,
   "2024-01-04,4,4,4,4,10".data,
   "2024-01-05,5,5,5,5,10".data]

/-- A storage file with the closing prices 1, 2, 3, 4, 5. -/
def fiveDays : List Char := fileOf fiveLines []

/-- The records of `fiveDays` for the symbol `AAPL`. -/
def fiveRecords : List StockData :=
  [⟨"AAPL", "2024-01-01", 1, 1, 1, 1, 10⟩,
   ⟨"AAPL", "2024-01-02", 2, 2, 2, 2, 10⟩,
   ⟨"AAPL", "2024-01-03", 3, 3, 3, 3, 10⟩,
   ⟨"AAPL", "2024-01-04", 4, 4, 4, 4, 10⟩,
   ⟨"AAPL", "2024-01-05", 5, 5, 5, 5, 10⟩]

/-- The segments of a path between its separators. -/
def pathSegments : List Char → List (List Char)
  | [] => [[]]
  | c :: cs =>
    if c = '/' then [] :: pathSegments cs
    else
      match pathSegments cs with
      | seg :: more => (c :: seg) :: more
      | [] => [[c]]

/-- The path resolution of the sample storages: `.` segments and repeated
separators do not matter (links and `..` segments do not occur in the
samples). -/
def sampleResolve (path : String) : String :=
  String.mk ((if path.data.head? == some '/' then ['/'] else [])
    ++ List.intercalate ['/']
        ((pathSegments path.data).filter (fun seg => !(seg == ['.'] || seg == []))))

/-- A storage that holds `fiveDays` for the symbol `AAPL` in the directory
`data` and lets every file be created. -/
def sampleStorage : Storage :=
  ⟨sampleResolve, fun file => if file = "data/AAPL.csv" then some fiveDays else none,
   fun _ => true, []⟩

/-- A storage without the data file of the symbol `OLD`, holding a prediction
artifact written for it earlier. -/
def staleStorage : Storage :=
  ⟨sampleResolve,
   fun file => if file = "data/OLD_predictions.csv"
      then some "Date,Predicted_Close\nYYYY-MM-DD,7\n".data else none,
   fun _ => true, []⟩

/-- The predictor the constructor builds for the directory `data`. -/
def samplePredictor : StockPredictor :=
  ⟨"data", [("EMA", .exponentialMovingAverage ⟨1 / 5⟩), ("SMA", .movingAverage ⟨5⟩)]⟩

/-! ## Auxiliary facts -/

theorem foldl_push_close (data : List StockData) (acc : List Rat) :
    data.foldl (fun prices stock => prices ++ [stock.close]) acc
      = acc ++ data.map (fun s => s.close) := by
  induction data generalizing acc with
  | nil => simp
  | cons s rest ih => simp [ih]

theorem getClosingPrices_eq_closes (data : List StockData) :
    PredictionAlgorithm.getClosingPrices data = closes data := by
  simp [PredictionAlgorithm.getClosingPrices, closes, foldl_push_close]

theorem closes_length (data : List StockData) : (closes data).length = data.length := by
  simp [closes]

theorem foldl_add_eq_sum (xs : List Rat) (init : Rat) :
    xs.foldl (fun acc x => acc + x) init = init + xs.sum := by
  induction xs generalizing init with
  | nil => simp
  | cons x rest ih => simp [ih, add_assoc]

theorem accumulate_eq_sum (v : List Rat) (lo hi : Nat) :
    accumulate v lo hi 0 = ((v.drop lo).take (hi - lo)).sum := by
  simp [accumulate, foldl_add_eq_sum]

theorem toSizeT_natCast (w : Nat) (hw : w < 2 ^ 64) : toSizeT (w : Int) = w := by
  unfold toSizeT
  have h : ((w : Int) % 2 ^ 64) = (w : Int) := Int.emod_eq_of_lt (by omega) (by exact_mod_cast hw)
  rw [h]
  simp

namespace MovingAverageAlgorithm

/-- The loop of `predict`, started at `i` with `w ≤ i`, appends one window
sum divided by `w` for each of the positions `i, i + 1, ..., prices.length`. -/
theorem predictLoop_eq_map (prices : List Rat) (w : Nat) (hw : w < 2 ^ 64) :
    ∀ (n i : Nat) (acc : List Rat), w ≤ i → prices.length + 1 - i = n →
      predictLoop prices (w : Int) i acc
        = acc ++ (List.range' i n).map
            (fun j => ((prices.drop (j - w)).take w).sum / (w : Rat)) := by
  intro n
  induction n with
  | zero =>
    intro i acc _ hn
    rw [predictLoop]
    have : ¬ i ≤ prices.length := by omega
    simp [this]
  | succ n ih =>
    intro i acc hwi hn
    rw [predictLoop]
    have hi : i ≤ prices.length := by omega
    simp only [hi, if_true]
    rw [ih (i + 1) _ (by omega) (by omega)]
    rw [toSizeT_natCast w hw, accumulate_eq_sum]
    have hsub : i - (i - w) = w := by omega
    simp [List.range'_succ, hsub]

theorem predict_natCast (w : Nat) (hw : w < 2 ^ 64) (data : List StockData)
    (hN : w ≤ data.length) :
    predict ⟨(w : Int)⟩ data
      = .ok ((List.range' w (data.length + 1 - w)).map
          (fun j => (((closes data).drop (j - w)).take w).sum / (w : Rat))) := by
  unfold predict
  simp only [getClosingPrices_eq_closes, toSizeT_natCast w hw, closes_length]
  have : ¬ data.length < w := by omega
  simp only [this, if_false]
  rw [predictLoop_eq_map (closes data) w hw _ w [] le_rfl (by rw [closes_length])]
  simp

end MovingAverageAlgorithm

/-! ## Simple moving average -/

/-- C1: for a valid window `w` (in `[2, 200]`) and a series of `N ≥ w` records,
`MovingAverageAlgorithm::predict` returns `N - w + 1` values, and the value at
each position `i ≤ N - w` is the arithmetic mean of the `w` closing prices
`closes[i], ..., closes[i + w - 1]`. -/
theorem MovingAverageAlgorithm.predict_returns_window_means
    (a : MovingAverageAlgorithm) (data : List StockData)
    (hlo : 2 ≤ a.windowSize) (hhi : a.windowSize ≤ 200)
    (hN : a.windowSize ≤ (data.length : Int)) :
    ∃ out : List Rat, a.predict data = .ok out ∧
      (out.length : Int) = (data.length : Int) - a.windowSize + 1 ∧
      ∀ i : Nat, (i : Int) ≤ (data.length : Int) - a.windowSize →
        out[i]? = some (arithmeticMean (((closes data).drop i).take a.windowSize.toNat)) := by
  obtain ⟨w⟩ := a
  simp only at hlo hhi hN ⊢
  obtain ⟨w, rfl⟩ := Int.eq_ofNat_of_zero_le (show (0 : Int) ≤ w by omega)
  have hw : w < 2 ^ 64 := by omega
  have hNw : w ≤ data.length := by exact_mod_cast hN
  refine ⟨_, MovingAverageAlgorithm.predict_natCast w hw data hNw, ?_, ?_⟩
  · simp only [List.length_map, List.length_range']
    omega
  · intro i hi
    have hi2 : i < data.length + 1 - w := by omega
    have hlen : (List.take w (List.drop i (closes data))).length = w := by
      simp only [List.length_take, List.length_drop, closes_length]
      omega
    simp [List.getElem?_map, List.getElem?_range' , hi2, arithmeticMean, hlen]

/-- Witness of C1: closing prices `[1,2,3,4,5]` with window 3. -/
theorem MovingAverageAlgorithm.predict_returns_window_means_witness :
    (∃ out : List Rat,
      MovingAverageAlgorithm.predict ⟨3⟩ (seriesOf [1, 2, 3, 4, 5]) = .ok out ∧
      (out.length : Int) = ((seriesOf [1, 2, 3, 4, 5]).length : Int) - 3 + 1 ∧
      ∀ i : Nat, (i : Int) ≤ ((seriesOf [1, 2, 3, 4, 5]).length : Int) - 3 →
        out[i]? = some (arithmeticMean
          (((closes (seriesOf [1, 2, 3, 4, 5])).drop i).take (3 : Int).toNat))) ∧
    MovingAverageAlgorithm.predict ⟨3⟩ (seriesOf [1, 2, 3, 4, 5]) = .ok [2, 3, 4] :=
  ⟨MovingAverageAlgorithm.predict_returns_window_means ⟨3⟩ (seriesOf [1, 2, 3, 4, 5])
      (by decide) (by decide) (by decide),
   by
    simp [MovingAverageAlgorithm.predict, seriesOf, PredictionAlgorithm.getClosingPrices,
      toSizeT, MovingAverageAlgorithm.predictLoop, accumulate]
    norm_num⟩

/-- C3: for a valid window `w`, `MovingAverageAlgorithm::predict` fails with
`InsufficientData` exactly when the series has fewer than `w` records, and
returns a result otherwise; it fails on the empty series, and a series of
exactly `w` records gives exactly one value. -/
theorem MovingAverageAlgorithm.predict_insufficient_iff
    (a : MovingAverageAlgorithm) (data : List StockData)
    (hlo : 2 ≤ a.windowSize) (hhi : a.windowSize ≤ 200) :
    (a.predict data = .error Error.InsufficientData ↔ (data.length : Int) < a.windowSize) ∧
    (¬ (data.length : Int) < a.windowSize → ∃ out, a.predict data = .ok out) ∧
    a.predict [] = .error Error.InsufficientData ∧
    ((data.length : Int) = a.windowSize → ∃ v : Rat, a.predict data = .ok [v]) := by
  obtain ⟨w⟩ := a
  simp only at hlo hhi ⊢
  obtain ⟨w, rfl⟩ := Int.eq_ofNat_of_zero_le (show (0 : Int) ≤ w by omega)
  have hw : w < 2 ^ 64 := by omega
  have hfail : ∀ d : List StockData, d.length < w →
      MovingAverageAlgorithm.predict ⟨(w : Int)⟩ d = .error Error.InsufficientData := by
    intro d hd
    unfold MovingAverageAlgorithm.predict
    simp only [getClosingPrices_eq_closes, toSizeT_natCast w hw, closes_length]
    simp [hd]
  refine ⟨⟨?_, ?_⟩, ?_, ?_, ?_⟩
  · intro h
    by_contra hge
    have hNw : w ≤ data.length := by omega
    rw [MovingAverageAlgorithm.predict_natCast w hw data hNw] at h
    cases h
  · intro h
    exact hfail data (by omega)
  · intro h
    exact ⟨_, MovingAverageAlgorithm.predict_natCast w hw data (by omega)⟩
  · exact hfail [] (by simp; omega)
  · intro h
    have hNw : data.length = w := by exact_mod_cast h
    refine ⟨(((closes data).drop (w - w)).take w).sum / (w : Rat), ?_⟩
    rw [MovingAverageAlgorithm.predict_natCast w hw data (by omega)]
    have : data.length + 1 - w = 1 := by omega
    simp [this]

/-- Witness of C3: window 3 on a series of two records. -/
theorem MovingAverageAlgorithm.predict_insufficient_iff_witness :
    (MovingAverageAlgorithm.predict ⟨3⟩ (seriesOf [1, 2]) = .error Error.InsufficientData ↔
        ((seriesOf [1, 2]).length : Int) < 3) ∧
    (¬ ((seriesOf [1, 2]).length : Int) < 3 →
        ∃ out, MovingAverageAlgorithm.predict ⟨3⟩ (seriesOf [1, 2]) = .ok out) ∧
    MovingAverageAlgorithm.predict ⟨3⟩ [] = .error Error.InsufficientData ∧
    (((seriesOf [1, 2]).length : Int) = 3 →
        ∃ v : Rat, MovingAverageAlgorithm.predict ⟨3⟩ (seriesOf [1, 2]) = .ok [v]) :=
  MovingAverageAlgorithm.predict_insufficient_iff ⟨3⟩ (seriesOf [1, 2]) (by decide) (by decide)

/-! ## Exponential moving average -/

/-- The values the loop of the exponential average appends, by recursion on
the remaining prices. -/
theorem ExponentialMovingAverageAlgorithm.predictLoop_append (alpha : Rat) :
    ∀ (rest : List Rat) (ema : Rat) (acc : List Rat),
      ExponentialMovingAverageAlgorithm.predictLoop alpha rest ema acc
        = acc ++ ExponentialMovingAverageAlgorithm.predictLoop alpha rest ema [] := by
  intro rest
  induction rest with
  | nil => intro ema acc; simp [ExponentialMovingAverageAlgorithm.predictLoop]
  | cons p rest ih =>
    intro ema acc
    simp only [ExponentialMovingAverageAlgorithm.predictLoop]
    rw [ih _ (acc ++ _), ih _ ([] ++ _)]
    simp

theorem ExponentialMovingAverageAlgorithm.predictLoop_length (alpha : Rat) :
    ∀ (rest : List Rat) (ema : Rat) (acc : List Rat),
      (ExponentialMovingAverageAlgorithm.predictLoop alpha rest ema acc).length
        = acc.length + rest.length := by
  intro rest
  induction rest with
  | nil => intro ema acc; simp [ExponentialMovingAverageAlgorithm.predictLoop]
  | cons p rest ih =>
    intro ema acc
    simp only [ExponentialMovingAverageAlgorithm.predictLoop, ih, List.length_append,
      List.length_cons, List.length_nil]
    omega

/-- The recurrence between neighbouring outputs of the loop. -/
theorem ExponentialMovingAverageAlgorithm.predictLoop_step (alpha : Rat) :
    ∀ (rest : List Rat) (p0 : Rat) (i : Nat) (c prev : Rat),
      (p0 :: rest)[i + 1]? = some c →
      (ExponentialMovingAverageAlgorithm.predictLoop alpha rest p0 [p0])[i]? = some prev →
      (ExponentialMovingAverageAlgorithm.predictLoop alpha rest p0 [p0])[i + 1]?
        = some (alpha * c + (1 - alpha) * prev) := by
  intro rest
  induction rest with
  | nil => intro p0 i c prev hc _; simp at hc
  | cons p rest ih =>
    intro p0 i c prev hc hprev
    simp only [ExponentialMovingAverageAlgorithm.predictLoop] at hprev ⊢
    rw [ExponentialMovingAverageAlgorithm.predictLoop_append] at hprev ⊢
    simp only [List.nil_append, List.singleton_append, List.cons_append] at hprev ⊢
    cases i with
    | zero =>
      simp only [List.getElem?_cons_zero, List.getElem?_cons_succ, Option.some.injEq,
        zero_add] at hc hprev ⊢
      subst hc hprev
      rfl
    | succ i =>
      simp only [List.getElem?_cons_succ] at hc hprev ⊢
      have h := ih (alpha * p + (1 - alpha) * p0) i c prev (by simpa using hc)
      rw [ExponentialMovingAverageAlgorithm.predictLoop_append] at h
      simp only [List.singleton_append, List.getElem?_cons_succ] at h
      exact h hprev

/-- C2: on a non-empty series of `N` records `ExponentialMovingAverageAlgorithm::predict`
returns `N` values, the first one is the first closing price, and each later one
is `alpha * closes[i] + (1 - alpha) * output[i - 1]`; this holds for every
smoothing factor, a valid one in particular. -/
theorem ExponentialMovingAverageAlgorithm.predict_recurrence
    (a : ExponentialMovingAverageAlgorithm) (data : List StockData) (hne : data ≠ []) :
    ∃ out : List Rat, a.predict data = .ok out ∧
      out.length = data.length ∧
      out[0]? = (closes data)[0]? ∧
      ∀ (i : Nat) (c prev : Rat), (closes data)[i + 1]? = some c → out[i]? = some prev →
        out[i + 1]? = some (a.smoothingFactor * c + (1 - a.smoothingFactor) * prev) := by
  unfold ExponentialMovingAverageAlgorithm.predict
  rw [getClosingPrices_eq_closes]
  have hlen := closes_length data
  cases hc : closes data with
  | nil =>
    rw [hc] at hlen
    exact absurd (List.length_eq_zero.mp hlen.symm) hne
  | cons p0 rest =>
    rw [hc] at hlen
    refine ⟨_, rfl, ?_, ?_, ?_⟩
    · rw [ExponentialMovingAverageAlgorithm.predictLoop_length, ← hlen]
      simp
      omega
    · rw [ExponentialMovingAverageAlgorithm.predictLoop_append]
      simp
    · intro i c prev h1 h2
      exact ExponentialMovingAverageAlgorithm.predictLoop_step _ rest p0 i c prev h1 h2

/-- Witness of C2: closing prices `[10,20,30]` with `alpha = 1/2`. -/
theorem ExponentialMovingAverageAlgorithm.predict_recurrence_witness :
    (∃ out : List Rat,
      ExponentialMovingAverageAlgorithm.predict ⟨1 / 2⟩ (seriesOf [10, 20, 30]) = .ok out ∧
      out.length = (seriesOf [10, 20, 30]).length ∧
      out[0]? = (closes (seriesOf [10, 20, 30]))[0]? ∧
      ∀ (i : Nat) (c prev : Rat),
        (closes (seriesOf [10, 20, 30]))[i + 1]? = some c → out[i]? = some prev →
        out[i + 1]? = some ((1 / 2 : Rat) * c + (1 - (1 / 2 : Rat)) * prev)) ∧
    ExponentialMovingAverageAlgorithm.predict ⟨1 / 2⟩ (seriesOf [10, 20, 30])
      = .ok [10, 15, 45 / 2] :=
  ⟨ExponentialMovingAverageAlgorithm.predict_recurrence ⟨1 / 2⟩ (seriesOf [10, 20, 30])
      (by simp [seriesOf]),
   by
    simp [ExponentialMovingAverageAlgorithm.predict, seriesOf,
      PredictionAlgorithm.getClosingPrices, ExponentialMovingAverageAlgorithm.predictLoop]
    norm_num⟩

/-- C4: `ExponentialMovingAverageAlgorithm::predict` fails with `NoData` exactly on
the empty series; on every other series it returns a result, so it raises
no other error. -/
theorem ExponentialMovingAverageAlgorithm.predict_nodata_iff
    (a : ExponentialMovingAverageAlgorithm) (data : List StockData) :
    (a.predict data = .error Error.NoData ↔ data = []) ∧
    (data = [] ∨ ∃ out, a.predict data = .ok out) := by
  unfold ExponentialMovingAverageAlgorithm.predict
  rw [getClosingPrices_eq_closes]
  cases data with
  | nil => simp [closes]
  | cons s rest => simp [closes]


/-! ## Configuration -/

theorem MovingAverageAlgorithm.validate_window_ok_iff (a : MovingAverageAlgorithm) :
    a.validate = .ok () ↔ 2 ≤ a.windowSize ∧ a.windowSize ≤ 200 := by
  unfold MovingAverageAlgorithm.validate MovingAverageAlgorithm.MIN_WINDOW
    MovingAverageAlgorithm.MAX_WINDOW
  split
  · simp; omega
  · simp; omega

theorem MovingAverageAlgorithm.validate_window_error_iff (a : MovingAverageAlgorithm) :
    a.validate = .error Error.InvalidParameter ↔ a.windowSize < 2 ∨ a.windowSize > 200 := by
  unfold MovingAverageAlgorithm.validate MovingAverageAlgorithm.MIN_WINDOW
    MovingAverageAlgorithm.MAX_WINDOW
  split
  · simp; omega
  · simp; omega

theorem ExponentialMovingAverageAlgorithm.validate_alpha_ok_iff
    (a : ExponentialMovingAverageAlgorithm) :
    a.validate = .ok () ↔ 1 / 10000 ≤ a.smoothingFactor ∧ a.smoothingFactor ≤ 1 := by
  unfold ExponentialMovingAverageAlgorithm.validate ExponentialMovingAverageAlgorithm.MIN_ALPHA
    ExponentialMovingAverageAlgorithm.MAX_ALPHA
  split
  · rename_i h
    simp only [reduceCtorEq, false_iff, not_and, not_le]
    intro h1
    rcases h with h | h
    · exact absurd h1 (not_le.mpr h)
    · exact h
  · rename_i h
    simp only [not_or, not_lt] at h
    simp only [true_iff]
    exact ⟨h.1, h.2⟩

theorem ExponentialMovingAverageAlgorithm.validate_alpha_error_iff
    (a : ExponentialMovingAverageAlgorithm) :
    a.validate = .error Error.InvalidParameter ↔
      a.smoothingFactor < 1 / 10000 ∨ 1 < a.smoothingFactor := by
  unfold ExponentialMovingAverageAlgorithm.validate ExponentialMovingAverageAlgorithm.MIN_ALPHA
    ExponentialMovingAverageAlgorithm.MAX_ALPHA
  split
  · rename_i h
    simp only [true_iff]
    exact h
  · rename_i h
    simp only [reduceCtorEq, false_iff]
    exact h

theorem ExponentialMovingAverageAlgorithm.create_alpha_ok_iff (alpha : Rat) :
    ExponentialMovingAverageAlgorithm.create alpha = .ok ⟨alpha⟩ ↔
      1 / 10000 ≤ alpha ∧ alpha ≤ 1 := by
  have hok := ExponentialMovingAverageAlgorithm.validate_alpha_ok_iff ⟨alpha⟩
  simp only at hok
  unfold ExponentialMovingAverageAlgorithm.create
  cases hv : ExponentialMovingAverageAlgorithm.validate ⟨alpha⟩ with
  | ok u => rw [hv] at hok; simpa using hok
  | error e => rw [hv] at hok; simpa using hok

theorem MovingAverageAlgorithm.create_window_ok_iff (w : Int) (a : MovingAverageAlgorithm) :
    MovingAverageAlgorithm.create w = .ok a ↔ a = ⟨w⟩ ∧ 2 ≤ w ∧ w ≤ 200 := by
  have hok := MovingAverageAlgorithm.validate_window_ok_iff ⟨w⟩
  simp only at hok
  unfold MovingAverageAlgorithm.create
  cases hv : MovingAverageAlgorithm.validate ⟨w⟩ with
  | ok u =>
    rw [hv] at hok
    have h := hok.mp rfl
    simp only [Except.ok.injEq]
    constructor
    · intro h1; exact ⟨h1.symm, h⟩
    · intro h1; exact h1.1.symm
  | error e =>
    rw [hv] at hok
    simp only [reduceCtorEq, false_iff] at hok
    simp only [reduceCtorEq, false_iff]
    intro h1
    exact hok h1.2

theorem ExponentialMovingAverageAlgorithm.create_alpha_ok_iff_general (alpha : Rat)
    (b : ExponentialMovingAverageAlgorithm) :
    ExponentialMovingAverageAlgorithm.create alpha = .ok b ↔
      b = ⟨alpha⟩ ∧ 1 / 10000 ≤ alpha ∧ alpha ≤ 1 := by
  have hok := ExponentialMovingAverageAlgorithm.validate_alpha_ok_iff ⟨alpha⟩
  simp only at hok
  unfold ExponentialMovingAverageAlgorithm.create
  cases hv : ExponentialMovingAverageAlgorithm.validate ⟨alpha⟩ with
  | ok u =>
    rw [hv] at hok
    have h := hok.mp rfl
    simp only [Except.ok.injEq]
    constructor
    · intro h1; exact ⟨h1.symm, h⟩
    · intro h1; exact h1.1.symm
  | error e =>
    rw [hv] at hok
    simp only [reduceCtorEq, false_iff] at hok
    simp only [reduceCtorEq, false_iff]
    intro h1
    exact hok h1.2

/-- After a run of `configure` calls the outcome of the last call is the
outcome `validate` has on the object the run leaves behind. -/
theorem MovingAverageAlgorithm.configureAll_window_outcome (a : MovingAverageAlgorithm)
    (calls : List Params) (hne : calls ≠ []) :
    (a.configureAll calls).2 = (a.configureAll calls).1.validate := by
  rcases List.eq_nil_or_concat calls with h | ⟨front, last, h⟩
  · exact absurd h hne
  · subst h
    simp [MovingAverageAlgorithm.configureAll, MovingAverageAlgorithm.configure]

theorem ExponentialMovingAverageAlgorithm.configureAll_alpha_outcome
    (a : ExponentialMovingAverageAlgorithm) (calls : List Params) (hne : calls ≠ []) :
    (a.configureAll calls).2 = (a.configureAll calls).1.validate := by
  rcases List.eq_nil_or_concat calls with h | ⟨front, last, h⟩
  · exact absurd h hne
  · subst h
    simp [ExponentialMovingAverageAlgorithm.configureAll,
      ExponentialMovingAverageAlgorithm.configure]

/-- C5: `configure` with `window_size = v` fails with `InvalidParameter` exactly
when `v < 2` or `v > 200`, whatever the window before the call; when it
returns, `getParameters` reports `window_size = v` with the bounds 2 and 200;
construction with window `v` succeeds on the same range. -/
theorem MovingAverageAlgorithm.configure_window_range
    (a : MovingAverageAlgorithm) (params : Params) (v : Int)
    (hkey : params.window_size = some v) :
    ((a.configure params).2 = .error Error.InvalidParameter ↔ v < 2 ∨ v > 200) ∧
    ((a.configure params).2 = .ok () ↔ 2 ≤ v ∧ v ≤ 200) ∧
    ((a.configure params).2 = .ok () →
      (a.configure params).1.getParameters
        = [("window_size", v), ("min_window", 2), ("max_window", 200)]) ∧
    (MovingAverageAlgorithm.create v = .error Error.InvalidParameter ↔ v < 2 ∨ v > 200) ∧
    (MovingAverageAlgorithm.create v = .ok ⟨v⟩ ↔ 2 ≤ v ∧ v ≤ 200) := by
  have hc : a.configure params = (⟨v⟩, MovingAverageAlgorithm.validate ⟨v⟩) := by
    simp [MovingAverageAlgorithm.configure, hkey]
  have hok := MovingAverageAlgorithm.validate_window_ok_iff ⟨v⟩
  have herr := MovingAverageAlgorithm.validate_window_error_iff ⟨v⟩
  simp only at hok herr
  rw [hc]
  refine ⟨herr, hok, ?_, ?_, ?_⟩
  · intro _
    rfl
  · unfold MovingAverageAlgorithm.create
    cases hv : MovingAverageAlgorithm.validate ⟨v⟩ with
    | ok u => rw [hv] at herr; simpa using herr
    | error e => rw [hv] at herr; simpa using herr
  · unfold MovingAverageAlgorithm.create
    cases hv : MovingAverageAlgorithm.validate ⟨v⟩ with
    | ok u => rw [hv] at hok; simpa using hok
    | error e => rw [hv] at hok; simpa using hok

/-- Witness of C5: `window_size = 1`, below the minimum, on the default window. -/
theorem MovingAverageAlgorithm.configure_window_range_witness :
    ((MovingAverageAlgorithm.configure ⟨5⟩ ⟨some 1, none⟩).2 = .error Error.InvalidParameter ↔
      (1 : Int) < 2 ∨ (1 : Int) > 200) ∧
    ((MovingAverageAlgorithm.configure ⟨5⟩ ⟨some 1, none⟩).2 = .ok () ↔
      (2 : Int) ≤ 1 ∧ (1 : Int) ≤ 200) ∧
    ((MovingAverageAlgorithm.configure ⟨5⟩ ⟨some 1, none⟩).2 = .ok () →
      (MovingAverageAlgorithm.configure ⟨5⟩ ⟨some 1, none⟩).1.getParameters
        = [("window_size", 1), ("min_window", 2), ("max_window", 200)]) ∧
    (MovingAverageAlgorithm.create 1 = .error Error.InvalidParameter ↔
      (1 : Int) < 2 ∨ (1 : Int) > 200) ∧
    (MovingAverageAlgorithm.create 1 = .ok ⟨1⟩ ↔ (2 : Int) ≤ 1 ∧ (1 : Int) ≤ 200) :=
  MovingAverageAlgorithm.configure_window_range ⟨5⟩ ⟨some 1, none⟩ 1 rfl

/-- C6, refuted as stated: the constructor and `validate` accept the lower
bound `0.0001`, which does not lie in the half-open interval `(0.0001, 1.0]`. -/
theorem ExponentialMovingAverageAlgorithm.create_accepts_lower_bound :
    ExponentialMovingAverageAlgorithm.create (1 / 10000) = .ok ⟨1 / 10000⟩ ∧
    ExponentialMovingAverageAlgorithm.validate ⟨1 / 10000⟩ = .ok () ∧
    ¬ ((1 / 10000 : Rat) < 1 / 10000 ∧ (1 / 10000 : Rat) ≤ 1) :=
  ⟨(ExponentialMovingAverageAlgorithm.create_alpha_ok_iff _).mpr (by norm_num),
   (ExponentialMovingAverageAlgorithm.validate_alpha_ok_iff _).mpr (by norm_num),
   fun h => absurd h.1 (lt_irrefl _)⟩

/-- C6, amended: the valid range of the smoothing factor is the closed interval
`[0.0001, 1.0]`: construction and `validate` succeed exactly when
`0.0001 ≤ alpha ≤ 1.0` and fail with `InvalidParameter` otherwise, both
bounds included. -/
theorem ExponentialMovingAverageAlgorithm.valid_range_is_closed_interval (alpha : Rat) :
    (ExponentialMovingAverageAlgorithm.create alpha = .ok ⟨alpha⟩ ↔
      1 / 10000 ≤ alpha ∧ alpha ≤ 1) ∧
    (ExponentialMovingAverageAlgorithm.create alpha = .error Error.InvalidParameter ↔
      ¬ (1 / 10000 ≤ alpha ∧ alpha ≤ 1)) ∧
    (ExponentialMovingAverageAlgorithm.validate ⟨alpha⟩ = .ok () ↔
      1 / 10000 ≤ alpha ∧ alpha ≤ 1) ∧
    (ExponentialMovingAverageAlgorithm.validate ⟨alpha⟩ = .error Error.InvalidParameter ↔
      ¬ (1 / 10000 ≤ alpha ∧ alpha ≤ 1)) ∧
    ExponentialMovingAverageAlgorithm.create (1 / 10000) = .ok ⟨1 / 10000⟩ ∧
    ExponentialMovingAverageAlgorithm.create 1 = .ok ⟨1⟩ := by
  have hok := ExponentialMovingAverageAlgorithm.validate_alpha_ok_iff ⟨alpha⟩
  have herr := ExponentialMovingAverageAlgorithm.validate_alpha_error_iff ⟨alpha⟩
  simp only at hok herr
  have herr2 : ExponentialMovingAverageAlgorithm.validate ⟨alpha⟩ = .error Error.InvalidParameter ↔
      ¬ (1 / 10000 ≤ alpha ∧ alpha ≤ 1) := by
    rw [herr, not_and_or, not_le, not_le]
  refine ⟨ExponentialMovingAverageAlgorithm.create_alpha_ok_iff alpha, ?_, hok, herr2,
    (ExponentialMovingAverageAlgorithm.create_alpha_ok_iff _).mpr (by norm_num),
    (ExponentialMovingAverageAlgorithm.create_alpha_ok_iff _).mpr (by norm_num)⟩
  · unfold ExponentialMovingAverageAlgorithm.create
    cases hv : ExponentialMovingAverageAlgorithm.validate ⟨alpha⟩ with
    | ok u => rw [hv] at herr2; simpa using herr2
    | error e => rw [hv] at herr2; simpa using herr2

/-- C7, refuted as stated: a moving average constructed with window 5 holds the
window 1 after a `configure` call that fails with `InvalidParameter`, and an
exponential average constructed with 0.2 holds 2 after such a call; in both
cases a subsequent `validate` fails. -/
theorem configure_failure_leaves_invalid_parameter :
    (MovingAverageAlgorithm.create 5 = .ok ⟨5⟩ ∧
      MovingAverageAlgorithm.configureAll ⟨5⟩ [⟨some 1, none⟩]
        = (⟨1⟩, .error Error.InvalidParameter) ∧
      MovingAverageAlgorithm.validate ⟨1⟩ = .error Error.InvalidParameter) ∧
    (ExponentialMovingAverageAlgorithm.create (1 / 5) = .ok ⟨1 / 5⟩ ∧
      ExponentialMovingAverageAlgorithm.configureAll ⟨1 / 5⟩ [⟨none, some 2⟩]
        = (⟨2⟩, .error Error.InvalidParameter) ∧
      ExponentialMovingAverageAlgorithm.validate ⟨2⟩ = .error Error.InvalidParameter) := by
  have h1 : MovingAverageAlgorithm.validate ⟨1⟩ = .error Error.InvalidParameter :=
    (MovingAverageAlgorithm.validate_window_error_iff _).mpr (by decide)
  have h2 : ExponentialMovingAverageAlgorithm.validate ⟨2⟩ = .error Error.InvalidParameter :=
    (ExponentialMovingAverageAlgorithm.validate_alpha_error_iff _).mpr (by norm_num)
  refine ⟨⟨(MovingAverageAlgorithm.create_window_ok_iff 5 ⟨5⟩).mpr ⟨rfl, by decide, by decide⟩, ?_, h1⟩,
    ⟨(ExponentialMovingAverageAlgorithm.create_alpha_ok_iff _).mpr (by norm_num), ?_, h2⟩⟩
  · simp [MovingAverageAlgorithm.configureAll, MovingAverageAlgorithm.configure, h1]
  · simp [ExponentialMovingAverageAlgorithm.configureAll,
      ExponentialMovingAverageAlgorithm.configure, h2]

/-- C7, amended: starting from a successfully constructed instance, after any
run of `configure` calls of which the last one returned normally (or after no
call at all) the live parameter lies within its bounds, window in `[2, 200]`
and alpha in `[0.0001, 1.0]`, so a subsequent `validate` succeeds; earlier
calls of the run may have failed. -/
theorem configure_keeps_validity_when_last_call_returns
    (w : Int) (a : MovingAverageAlgorithm) (calls : List Params)
    (alpha : Rat) (b : ExponentialMovingAverageAlgorithm) (calls2 : List Params)
    (ha : MovingAverageAlgorithm.create w = .ok a)
    (hlast : (a.configureAll calls).2 = .ok ())
    (hb : ExponentialMovingAverageAlgorithm.create alpha = .ok b)
    (hlast2 : (b.configureAll calls2).2 = .ok ()) :
    ((a.configureAll calls).1.validate = .ok () ∧
      2 ≤ (a.configureAll calls).1.windowSize ∧ (a.configureAll calls).1.windowSize ≤ 200) ∧
    ((b.configureAll calls2).1.validate = .ok () ∧
      1 / 10000 ≤ (b.configureAll calls2).1.smoothingFactor ∧
      (b.configureAll calls2).1.smoothingFactor ≤ 1) := by
  have hva : (a.configureAll calls).1.validate = .ok () := by
    by_cases hne : calls = []
    · subst hne
      obtain ⟨rfl, h⟩ := (MovingAverageAlgorithm.create_window_ok_iff w a).mp ha
      exact (MovingAverageAlgorithm.validate_window_ok_iff _).mpr h
    · rw [← MovingAverageAlgorithm.configureAll_window_outcome a calls hne]
      exact hlast
  have hvb : (b.configureAll calls2).1.validate = .ok () := by
    by_cases hne : calls2 = []
    · subst hne
      obtain ⟨rfl, h⟩ := (ExponentialMovingAverageAlgorithm.create_alpha_ok_iff_general alpha b).mp hb
      exact (ExponentialMovingAverageAlgorithm.validate_alpha_ok_iff _).mpr h
    · rw [← ExponentialMovingAverageAlgorithm.configureAll_alpha_outcome b calls2 hne]
      exact hlast2
  exact ⟨⟨hva, (MovingAverageAlgorithm.validate_window_ok_iff _).mp hva⟩,
    ⟨hvb, (ExponentialMovingAverageAlgorithm.validate_alpha_ok_iff _).mp hvb⟩⟩

/-- Witness of C7 (amended): a failed call followed by a successful one, for each
variant. -/
theorem configure_keeps_validity_when_last_call_returns_witness :
    ((MovingAverageAlgorithm.configureAll ⟨5⟩ [⟨some 1, none⟩, ⟨some 3, none⟩]).1.validate
        = .ok () ∧
      2 ≤ (MovingAverageAlgorithm.configureAll ⟨5⟩
            [⟨some 1, none⟩, ⟨some 3, none⟩]).1.windowSize ∧
      (MovingAverageAlgorithm.configureAll ⟨5⟩
            [⟨some 1, none⟩, ⟨some 3, none⟩]).1.windowSize ≤ 200) ∧
    ((ExponentialMovingAverageAlgorithm.configureAll ⟨1 / 5⟩
          [⟨none, some 2⟩, ⟨none, some (1 / 2)⟩]).1.validate = .ok () ∧
      1 / 10000 ≤ (ExponentialMovingAverageAlgorithm.configureAll ⟨1 / 5⟩
          [⟨none, some 2⟩, ⟨none, some (1 / 2)⟩]).1.smoothingFactor ∧
      (ExponentialMovingAverageAlgorithm.configureAll ⟨1 / 5⟩
          [⟨none, some 2⟩, ⟨none, some (1 / 2)⟩]).1.smoothingFactor ≤ 1) :=
  configure_keeps_validity_when_last_call_returns 5 ⟨5⟩ [⟨some 1, none⟩, ⟨some 3, none⟩]
    (1 / 5) ⟨1 / 5⟩ [⟨none, some 2⟩, ⟨none, some (1 / 2)⟩]
    ((MovingAverageAlgorithm.create_window_ok_iff 5 ⟨5⟩).mpr ⟨rfl, by decide, by decide⟩)
    (by
      simp only [MovingAverageAlgorithm.configureAll, MovingAverageAlgorithm.configure,
        List.foldl_cons, List.foldl_nil]
      exact (MovingAverageAlgorithm.validate_window_ok_iff _).mpr (by decide))
    ((ExponentialMovingAverageAlgorithm.create_alpha_ok_iff _).mpr (by norm_num))
    (by
      simp only [ExponentialMovingAverageAlgorithm.configureAll,
        ExponentialMovingAverageAlgorithm.configure, List.foldl_cons, List.foldl_nil]
      exact (ExponentialMovingAverageAlgorithm.validate_alpha_ok_iff _).mpr (by norm_num))

/-! ## Reading the storage format -/

theorem lineOf_append_delim (d : Char) (l rest : List Char) (h : d ∉ l) :
    lineOf d (l ++ d :: rest) = l := by
  induction l with
  | nil => simp [lineOf]
  | cons c cs ih =>
    have hc : c ≠ d := fun e => h (by simp [e])
    have hcs : d ∉ cs := fun e => h (by simp [e])
    have := ih hcs
    simp only [lineOf] at this ⊢
    simp [List.takeWhile_cons, hc, this]

theorem afterLine_append_delim (d : Char) (l rest : List Char) (h : d ∉ l) :
    afterLine d (l ++ d :: rest) = rest := by
  induction l with
  | nil => simp [afterLine]
  | cons c cs ih =>
    have hc : c ≠ d := fun e => h (by simp [e])
    have hcs : d ∉ cs := fun e => h (by simp [e])
    have := ih hcs
    simp only [afterLine] at this ⊢
    simp [List.dropWhile_cons, hc, this]

theorem lineOf_of_not_mem (d : Char) (l : List Char) (h : d ∉ l) : lineOf d l = l := by
  induction l with
  | nil => simp [lineOf]
  | cons c cs ih =>
    have hc : c ≠ d := fun e => h (by simp [e])
    have hcs : d ∉ cs := fun e => h (by simp [e])
    have := ih hcs
    simp only [lineOf] at this ⊢
    simp [List.takeWhile_cons, hc, this]

theorem afterLine_of_not_mem (d : Char) (l : List Char) (h : d ∉ l) : afterLine d l = [] := by
  induction l with
  | nil => simp [afterLine]
  | cons c cs ih =>
    have hc : c ≠ d := fun e => h (by simp [e])
    have hcs : d ∉ cs := fun e => h (by simp [e])
    have := ih hcs
    simp only [afterLine] at this ⊢
    simp [List.dropWhile_cons, hc, this]

namespace FileHandler

theorem readLoop_nil (stod : List Char → Option Rat) (symbol : String) (data : List StockData) :
    readLoop stod symbol [] data = .ok data := by
  rw [readLoop]
  simp

/-- One turn of the loop of `readStockData`: the line read either adds the
record it stands for or adds nothing, and no exception leaves the loop body. -/
theorem readLoop_step (stod : List Char → Option Rat) (symbol : String) (file : List Char)
    (data : List StockData) (hne : file ≠ []) :
    readLoop stod symbol file data
      = readLoop stod symbol (afterLine '\n' file)
          (data ++ (recordOf stod symbol (lineOf '\n' file)).toList) := by
  rw [readLoop]
  simp only [hne, if_false]
  unfold recordOf
  rcases splitCSVLine (lineOf '\n' file) with
    _ | ⟨d, _ | ⟨o, _ | ⟨h, _ | ⟨l, _ | ⟨c, _ | ⟨v, _ | ⟨x, xs⟩⟩⟩⟩⟩⟩⟩
  all_goals simp [validateDataEntry]
  cases stod o <;> cases stod h <;> cases stod l <;> cases stod c <;> cases stod v <;> simp

end FileHandler

theorem fileOf_ne_nil (l : List Char) (ls : List (List Char)) (last : List Char) :
    fileOf (l :: ls) last ≠ [] := by
  simp [fileOf]

theorem splitCSVLine_nil : FileHandler.splitCSVLine [] = [] := by
  unfold FileHandler.splitCSVLine
  rw [FileHandler.splitLoop]
  simp

theorem recordOf_nil (stod : List Char → Option Rat) (symbol : String) :
    recordOf stod symbol [] = none := by
  simp [recordOf, splitCSVLine_nil]

/-- The loop of `readStockData` on a stream holding the lines `lines` and the
unterminated rest `last`. -/
theorem FileHandler.readLoop_fileOf (stod : List Char → Option Rat) (symbol : String)
    (last : List Char) (hlast : '\n' ∉ last) :
    ∀ (lines : List (List Char)) (data : List StockData), (∀ l ∈ lines, '\n' ∉ l) →
      FileHandler.readLoop stod symbol (fileOf lines last) data
        = .ok (data ++ (lines ++ [last]).filterMap (recordOf stod symbol)) := by
  intro lines
  induction lines with
  | nil =>
    intro data _
    by_cases hl : last = []
    · subst hl
      simp [fileOf, FileHandler.readLoop_nil, recordOf_nil]
    · have hstep := FileHandler.readLoop_step stod symbol last data hl
      simp only [fileOf, List.foldr_nil]
      rw [hstep, lineOf_of_not_mem _ _ hlast, afterLine_of_not_mem _ _ hlast,
        FileHandler.readLoop_nil]
      cases hr : recordOf stod symbol last <;> simp [List.filterMap_cons, hr]
  | cons l ls ih =>
    intro data hnl
    have hl : '\n' ∉ l := hnl l (by simp)
    have hls : ∀ x ∈ ls, '\n' ∉ x := fun x hx => hnl x (by simp [hx])
    rw [FileHandler.readLoop_step stod symbol _ data (fileOf_ne_nil l ls last)]
    have hshape : fileOf (l :: ls) last = l ++ '\n' :: fileOf ls last := by simp [fileOf]
    rw [hshape, lineOf_append_delim _ _ _ hl, afterLine_append_delim _ _ _ hl, ih _ hls]
    cases hr : recordOf stod symbol l <;> simp [List.filterMap_cons, hr]

/-- C8: on a file that can be opened, made of the lines `lines` (each ended by a
line feed) and the unterminated rest `last`, `readStockData` raises no error
and returns, in file order, exactly the records of the lines after the first
that split into six fields of which fields 2 to 6 parse; every other line is
dropped and the first line yields no record. -/
theorem FileHandler.readStockData_keeps_wellformed_rows
    (stod : List Char → Option Rat) (fs : FileSystem) (dataDirectory symbol : String)
    (lines : List (List Char)) (last : List Char)
    (hlines : ∀ l ∈ lines, '\n' ∉ l) (hlast : '\n' ∉ last)
    (hfile : fs (FileHandler.buildFilePath dataDirectory symbol false)
      = some (fileOf lines last)) :
    FileHandler.readStockData stod fs dataDirectory symbol
      = .ok (((lines ++ [last]).drop 1).filterMap (recordOf stod symbol)) := by
  unfold FileHandler.readStockData
  rw [hfile]
  simp only
  cases lines with
  | nil =>
    simp only [fileOf, List.foldr_nil, afterLine_of_not_mem _ _ hlast,
      FileHandler.readLoop_nil]
    simp
  | cons h ls =>
    have hh : '\n' ∉ h := hlines h (by simp)
    have hls : ∀ x ∈ ls, '\n' ∉ x := fun x hx => hlines x (by simp [hx])
    have hshape : fileOf (h :: ls) last = h ++ '\n' :: fileOf ls last := by simp [fileOf]
    rw [hshape, afterLine_append_delim _ _ _ hh,
      FileHandler.readLoop_fileOf stod symbol last hlast ls [] hls]
    simp

theorem afterLine_length_le (d c : Char) (cs : List Char) :
    (afterLine d (c :: cs)).length ≤ cs.length := by
  have h := (List.dropWhile_sublist (fun x => x != d) (l := c :: cs)).length_le
  simp only [afterLine, List.length_drop, List.length_cons] at h ⊢
  omega

theorem FileHandler.splitLoop_nil (acc : List (List Char)) :
    FileHandler.splitLoop [] acc = acc := by
  rw [FileHandler.splitLoop]
  simp

theorem FileHandler.splitLoop_cons (c : Char) (cs : List Char) (acc : List (List Char)) :
    FileHandler.splitLoop (c :: cs) acc
      = FileHandler.splitLoop (afterLine ',' (c :: cs)) (acc ++ [lineOf ',' (c :: cs)]) := by
  rw [FileHandler.splitLoop]
  simp

theorem FileHandler.splitLoop_append :
    ∀ (n : Nat) (ss : List Char) (acc : List (List Char)), ss.length ≤ n →
      FileHandler.splitLoop ss acc = acc ++ FileHandler.splitLoop ss [] := by
  intro n
  induction n with
  | zero =>
    intro ss acc h
    have : ss = [] := List.length_eq_zero.mp (by omega)
    subst this
    simp [FileHandler.splitLoop_nil]
  | succ n ih =>
    intro ss acc h
    cases ss with
    | nil => simp [FileHandler.splitLoop_nil]
    | cons c cs =>
      have hlen : (afterLine ',' (c :: cs)).length ≤ n := by
        have := afterLine_length_le ',' c cs
        simp only [List.length_cons] at h
        omega
      rw [FileHandler.splitLoop_cons, FileHandler.splitLoop_cons, ih _ _ hlen,
        ih _ ([] ++ _) hlen]
      simp

theorem splitCSVLine_cons (c : Char) (cs : List Char) :
    FileHandler.splitCSVLine (c :: cs)
      = lineOf ',' (c :: cs) :: FileHandler.splitCSVLine (afterLine ',' (c :: cs)) := by
  unfold FileHandler.splitCSVLine
  rw [FileHandler.splitLoop_cons, FileHandler.splitLoop_append _ _ _ le_rfl]
  simp

/-- Witness of C8: the sample file has a row of five fields and a row with a
non-numeric close; the two well-formed rows are returned and no error is
raised. -/
theorem FileHandler.readStockData_keeps_wellformed_rows_witness :
    FileHandler.readStockData stodDecimal sampleFs "data" "AAPL"
      = .ok [⟨"AAPL", "2024-01-01", 1, 2, 3, 4, 5⟩,
             ⟨"AAPL", "2024-01-04", 2, 3, 4, 5, 13 / 2⟩] :=
  (FileHandler.readStockData_keeps_wellformed_rows stodDecimal sampleFs "data" "AAPL"
      sampleLines [] (by decide) (by decide) (by decide)).trans
    (by
      simp [sampleLines, recordOf, splitCSVLine_cons, splitCSVLine_nil, lineOf, afterLine,
        stodDecimal, digitsValue]
      norm_num)

/-! ## Fields and commas -/

theorem afterLine_comma_cons (cs : List Char) : afterLine ',' (',' :: cs) = cs := by
  simp [afterLine]

theorem afterLine_other_cons (c : Char) (cs : List Char) (hc : c ≠ ',') :
    afterLine ',' (c :: cs) = afterLine ',' cs := by
  simp [afterLine, List.dropWhile_cons, hc]

/-- The fields after the first one: one for each comma, except that a comma
at the very end of the line opens no field. -/
theorem splitCSVLine_afterLine_length :
    ∀ s : List Char,
      (FileHandler.splitCSVLine (afterLine ',' s)).length
        + (if s.getLast? = some ',' then 1 else 0) = commaCount s := by
  intro s
  induction s with
  | nil => simp [afterLine, splitCSVLine_nil, commaCount]
  | cons c cs ih =>
    by_cases hc : c = ','
    · subst hc
      rw [afterLine_comma_cons]
      cases cs with
      | nil => simp [splitCSVLine_nil, commaCount]
      | cons c1 cs1 =>
        rw [splitCSVLine_cons, List.getLast?_cons_cons]
        simp only [commaCount, List.length_cons, List.count_cons_self] at ih ⊢
        omega
    · rw [afterLine_other_cons c cs hc]
      have hcount : commaCount (c :: cs) = commaCount cs := by
        simp [commaCount, List.count_cons, hc]
      rw [hcount]
      cases cs with
      | nil =>
        simp [afterLine, splitCSVLine_nil, commaCount, hc]
      | cons c1 cs1 =>
        rw [List.getLast?_cons_cons]
        exact ih

theorem splitCSVLine_length (s : List Char) :
    (FileHandler.splitCSVLine s).length
      = if s = [] then 0
        else if s.getLast? = some ',' then commaCount s else commaCount s + 1 := by
  cases s with
  | nil => simp [splitCSVLine_nil]
  | cons c cs =>
    have h := splitCSVLine_afterLine_length (c :: cs)
    rw [splitCSVLine_cons]
    simp only [List.length_cons, reduceCtorEq, if_false]
    split <;> rename_i hl <;> simp only [hl, if_true, if_false] at h <;> omega

theorem splitCSVLine_length_eq_six_iff (s : List Char) :
    (FileHandler.splitCSVLine s).length = 6 ↔
      (commaCount s = 5 ∧ s.getLast? ≠ some ',') ∨ (commaCount s = 6 ∧ s.getLast? = some ',') := by
  rw [splitCSVLine_length]
  by_cases hs : s = []
  · subst hs
    simp [commaCount]
  · by_cases hl : s.getLast? = some ','
    · simp [hs, hl]
    · simp [hs, hl]

theorem FileHandler.validateDataEntry_length (stod : List Char → Option Rat)
    (entry : List (List Char)) (h : FileHandler.validateDataEntry stod entry = true) :
    entry.length = 6 := by
  unfold FileHandler.validateDataEntry at h
  by_contra hne
  simp [hne] at h

/-- C9, refuted as stated: a row of six numeric fields followed by a trailing
comma has six delimiter commas and is accepted. -/
theorem FileHandler.trailing_comma_row_accepted :
    FileHandler.validateDataEntry stodDecimal
        (FileHandler.splitCSVLine "2024-01-01,1,2,3,4,5,".data) = true ∧
    FileHandler.splitCSVLine "2024-01-01,1,2,3,4,5,".data
      = ["2024-01-01".data, "1".data, "2".data, "3".data, "4".data, "5".data] ∧
    commaCount "2024-01-01,1,2,3,4,5,".data = 6 := by
  have hsplit : FileHandler.splitCSVLine "2024-01-01,1,2,3,4,5,".data
      = ["2024-01-01".data, "1".data, "2".data, "3".data, "4".data, "5".data] := by
    simp [splitCSVLine_cons, splitCSVLine_nil, lineOf, afterLine]
  refine ⟨?_, hsplit, by decide⟩
  rw [hsplit]
  decide

/-- C9, amended: a line that `validateDataEntry (splitCSVLine line)` accepts
splits into exactly six fields, and it contains either exactly five commas
and does not end in a comma, or exactly six commas of which the last is its
final character: a trailing comma opens no seventh field. -/
theorem FileHandler.accepted_row_comma_count (stod : List Char → Option Rat)
    (line : List Char)
    (h : FileHandler.validateDataEntry stod (FileHandler.splitCSVLine line) = true) :
    (FileHandler.splitCSVLine line).length = 6 ∧
    ((commaCount line = 5 ∧ line.getLast? ≠ some ',') ∨
     (commaCount line = 6 ∧ line.getLast? = some ',')) := by
  have hlen := FileHandler.validateDataEntry_length stod _ h
  exact ⟨hlen, (splitCSVLine_length_eq_six_iff line).mp hlen⟩

/-- Witness of C9 (amended): a well-formed row of the sample file. -/
theorem FileHandler.accepted_row_comma_count_witness :
    (FileHandler.splitCSVLine "2024-01-01,1,2,3,4,5".data).length = 6 ∧
    ((commaCount "2024-01-01,1,2,3,4,5".data = 5 ∧
        "2024-01-01,1,2,3,4,5".data.getLast? ≠ some ',') ∨
     (commaCount "2024-01-01,1,2,3,4,5".data = 6 ∧
        "2024-01-01,1,2,3,4,5".data.getLast? = some ',')) :=
  FileHandler.accepted_row_comma_count stodDecimal "2024-01-01,1,2,3,4,5".data
    (by
      have hsplit : FileHandler.splitCSVLine "2024-01-01,1,2,3,4,5".data
          = ["2024-01-01".data, "1".data, "2".data, "3".data, "4".data, "5".data] := by
        simp [splitCSVLine_cons, splitCSVLine_nil, lineOf, afterLine]
      rw [hsplit]
      decide)

/-! ## Header check -/

theorem occursIn_nil_iff (token : List Char) : occursIn token [] ↔ token = [] := by
  constructor
  · rintro ⟨before, after, h⟩
    have h1 := congrArg List.length h
    simp only [List.length_nil, List.length_append] at h1
    exact List.length_eq_zero.mp (by omega)
  · intro h
    exact ⟨[], [], by simp [h]⟩

theorem occursIn_of_starts (token s : List Char) (h : token.isPrefixOf s = true) :
    occursIn token s := by
  obtain ⟨t, ht⟩ := List.isPrefixOf_iff_prefix.mp h
  exact ⟨[], t, by simp [ht]⟩

theorem occursIn_cons_iff (token : List Char) (c : Char) (cs : List Char)
    (h : ¬ token.isPrefixOf (c :: cs) = true) :
    occursIn token (c :: cs) ↔ occursIn token cs := by
  constructor
  · rintro ⟨before, after, hs⟩
    cases before with
    | nil =>
      exfalso
      apply h
      exact List.isPrefixOf_iff_prefix.mpr ⟨after, by simpa using hs.symm⟩
    | cons b bs =>
      simp only [List.cons_append, List.cons.injEq] at hs
      exact ⟨bs, after, hs.2⟩
  · rintro ⟨before, after, hs⟩
    exact ⟨c :: before, after, by simp [hs]⟩

/-- The search of `std::string::find` succeeds exactly when the token occurs
as a substring. -/
theorem find_isSome_iff (token : List Char) :
    ∀ s : List Char, (find s token).isSome = true ↔ occursIn token s := by
  intro s
  induction s with
  | nil =>
    rw [occursIn_nil_iff]
    by_cases ht : token = [] <;> simp [find, ht]
  | cons c cs ih =>
    by_cases hp : token.isPrefixOf (c :: cs) = true
    · simp only [find, hp, if_true, Option.isSome_some, true_iff]
      exact occursIn_of_starts token _ hp
    · rw [occursIn_cons_iff token c cs hp, ← ih]
      simp [find, hp]

theorem lineOf_append_rest (header rest : List Char) (hnl : '\n' ∉ header)
    (hrest : rest = [] ∨ rest.head? = some '\n') :
    lineOf '\n' (header ++ rest) = header := by
  rcases hrest with h | h
  · subst h
    simpa using lineOf_of_not_mem '\n' header hnl
  · cases rest with
    | nil => simp at h
    | cons r rs =>
      simp only [List.head?_cons, Option.some.injEq] at h
      subst h
      exact lineOf_append_delim '\n' header rs hnl

/-- C10: on a file that can be opened and whose first line is `header` (the
characters before the first line feed, or the whole content when there is
none), `validateCSVFormat` returns true exactly when each of the six tokens
`Date`, `Open`, `High`, `Low`, `Close`, `Volume` occurs in `header` as a
substring; neither the order of the tokens nor further text matters. -/
theorem FileHandler.validateCSVFormat_iff_tokens_occur
    (fs : FileSystem) (filePath : String) (header rest : List Char)
    (hnl : '\n' ∉ header) (hrest : rest = [] ∨ rest.head? = some '\n')
    (hfile : fs filePath = some (header ++ rest)) :
    FileHandler.validateCSVFormat fs filePath = true ↔
      ∀ token ∈ requiredTokens, occursIn token header := by
  unfold FileHandler.validateCSVFormat
  rw [hfile]
  simp only [lineOf_append_rest header rest hnl hrest, Bool.and_eq_true, find_isSome_iff,
    requiredTokens, List.mem_cons, List.mem_singleton, List.not_mem_nil, or_false,
    forall_eq_or_imp, forall_eq]
  tauto

/-- Witness of C10: the permuted header with an extra column is accepted, and a
header that lacks `Volume` is rejected. -/
theorem FileHandler.validateCSVFormat_iff_tokens_occur_witness :
    (FileHandler.validateCSVFormat sampleFs "data/header.csv" = true ↔
      ∀ token ∈ requiredTokens,
        occursIn token "Volume,Date,Close,High,Low,Open,Extra".data) ∧
    FileHandler.validateCSVFormat sampleFs "data/header.csv" = true ∧
    (FileHandler.validateCSVFormat sampleFs "data/short.csv" = true ↔
      ∀ token ∈ requiredTokens, occursIn token "Date,Open,High,Low,Close".data) ∧
    FileHandler.validateCSVFormat sampleFs "data/short.csv" = false :=
  ⟨FileHandler.validateCSVFormat_iff_tokens_occur sampleFs "data/header.csv"
      "Volume,Date,Close,High,Low,Open,Extra".data "\n1,2,3,4,5,6,7\n".data
      (by decide) (by decide) (by decide),
   by decide,
   FileHandler.validateCSVFormat_iff_tokens_occur sampleFs "data/short.csv"
      "Date,Open,High,Low,Close".data [] (by decide) (by decide) (by decide),
   by decide⟩

/-! ## Orchestrator: lookup, read, compute, write -/

theorem foldl_push_name (entries : List (String × PredictionAlgorithm)) (acc : List String) :
    entries.foldl (fun result algo => result ++ [algo.1]) acc
      = acc ++ entries.map (fun algo => algo.1) := by
  induction entries generalizing acc with
  | nil => simp
  | cons e rest ih => simp [ih]

theorem StockPredictor.getAvailableAlgorithms_eq_keys (sp : StockPredictor) :
    sp.getAvailableAlgorithms = sp.algorithms.map (fun algo => algo.1) := by
  simp [StockPredictor.getAvailableAlgorithms, foldl_push_name]

theorem mapFind_eq_none_iff (entries : List (String × PredictionAlgorithm)) (key : String) :
    mapFind entries key = none ↔ key ∉ entries.map (fun algo => algo.1) := by
  induction entries with
  | nil => simp [mapFind]
  | cons e rest ih =>
    obtain ⟨k, v⟩ := e
    by_cases hk : key = k
    · simp [mapFind, hk]
    · simp [mapFind, hk, ih]

theorem foldl_writeRow (fmt : Rat → List Char) (values : List Rat) (written : List Char) :
    values.foldl (writeRow fmt) written
      = written ++ (values.map (fun v => "YYYY-MM-DD,".data ++ fmt v ++ "\n".data)).flatten := by
  induction values generalizing written with
  | nil => simp
  | cons v rest ih => simp [ih, writeRow]

namespace StockPredictor

theorem predictWith_read_error (stod : List Char → Option Rat) (fmt : Rat → List Char)
    (dir : String) (algo : PredictionAlgorithm) (st : Storage) (symbol : String) (e : Error)
    (hread : FileHandler.readStockData stod st.files dir symbol = .error e) :
    predictWith stod fmt dir algo st symbol
      = (⟨st.resolve, st.disk, st.canCreate,
          st.log ++ [Access.openRead (FileHandler.buildFilePath dir symbol false)]⟩,
         .error e) := by
  simp [predictWith, FileHandler.readStockDataOn, hread]

theorem predictWith_compute_error (stod : List Char → Option Rat) (fmt : Rat → List Char)
    (dir : String) (algo : PredictionAlgorithm) (st : Storage) (symbol : String) (e : Error)
    (data : List StockData)
    (hread : FileHandler.readStockData stod st.files dir symbol = .ok data)
    (hcompute : algo.predict data = .error e) :
    predictWith stod fmt dir algo st symbol
      = (⟨st.resolve, st.disk, st.canCreate,
          st.log ++ [Access.openRead (FileHandler.buildFilePath dir symbol false)]⟩,
         .error e) := by
  simp [predictWith, FileHandler.readStockDataOn, hread, hcompute]

theorem predictWith_write_error (stod : List Char → Option Rat) (fmt : Rat → List Char)
    (dir : String) (algo : PredictionAlgorithm) (st : Storage) (symbol : String)
    (data : List StockData) (predictions : List Rat)
    (hread : FileHandler.readStockData stod st.files dir symbol = .ok data)
    (hcompute : algo.predict data = .ok predictions)
    (hcreate : st.canCreate (FileHandler.buildFilePath dir symbol true) = false) :
    predictWith stod fmt dir algo st symbol
      = (⟨st.resolve, st.disk, st.canCreate,
          st.log ++ [Access.openRead (FileHandler.buildFilePath dir symbol false)]
            ++ [Access.openWrite (FileHandler.buildFilePath dir symbol true)]⟩,
         .error Error.WriteFailed) := by
  simp [predictWith, FileHandler.readStockDataOn, FileHandler.writePredictions, hread,
    hcompute, hcreate]

theorem predictWith_ok (stod : List Char → Option Rat) (fmt : Rat → List Char)
    (dir : String) (algo : PredictionAlgorithm) (st : Storage) (symbol : String)
    (data : List StockData) (predictions : List Rat)
    (hread : FileHandler.readStockData stod st.files dir symbol = .ok data)
    (hcompute : algo.predict data = .ok predictions)
    (hcreate : st.canCreate (FileHandler.buildFilePath dir symbol true) = true) :
    predictWith stod fmt dir algo st symbol
      = (⟨st.resolve,
          fun file => if file = st.resolve (FileHandler.buildFilePath dir symbol true)
            then some (artifactOf fmt predictions) else st.disk file,
          st.canCreate,
          st.log ++ [Access.openRead (FileHandler.buildFilePath dir symbol false)]
            ++ [Access.openWrite (FileHandler.buildFilePath dir symbol true)]⟩,
         .ok predictions) := by
  simp [predictWith, FileHandler.readStockDataOn, FileHandler.writePredictions, hread,
    hcompute, hcreate, foldl_writeRow, artifactOf]

end StockPredictor

/-! ## Sample evaluations -/

theorem read_fiveDays :
    FileHandler.readStockData stodDecimal sampleStorage.files "data" "AAPL" = .ok fiveRecords := by
  have hfile : sampleStorage.files (FileHandler.buildFilePath "data" "AAPL" false)
      = some (fileOf fiveLines []) := by decide
  unfold FileHandler.readStockData
  rw [hfile]
  have hshape : fileOf fiveLines []
      = "Date,Open,High,Low,Close,Volume".data ++ '\n' :: fileOf (fiveLines.drop 1) [] := by
    simp [fileOf, fiveLines]
  simp only
  rw [hshape, afterLine_append_delim _ _ _ (by decide),
    FileHandler.readLoop_fileOf stodDecimal "AAPL" [] (by decide) _ [] (by decide)]
  simp [fiveLines, fiveRecords, recordOf, splitCSVLine_cons, splitCSVLine_nil, lineOf,
    afterLine, stodDecimal, digitsValue]

theorem movingAverage_five_on_fiveRecords :
    MovingAverageAlgorithm.predict ⟨5⟩ fiveRecords = .ok [3] := by
  simp [MovingAverageAlgorithm.predict, fiveRecords, PredictionAlgorithm.getClosingPrices,
    toSizeT, MovingAverageAlgorithm.predictLoop, accumulate]
  norm_num

theorem movingAverage_three_on_fiveRecords :
    MovingAverageAlgorithm.predict ⟨3⟩ fiveRecords = .ok [2, 3, 4] := by
  simp [MovingAverageAlgorithm.predict, fiveRecords, PredictionAlgorithm.getClosingPrices,
    toSizeT, MovingAverageAlgorithm.predictLoop, accumulate]
  norm_num

/-! ## Orchestrator: the claims about `predict` -/

/-- C11: for every registry, symbol and storage, `StockPredictor::predict` with a
name that is not a key of the registry fails with `UnknownAlgorithm`, and the
storage after the call is the storage before it, access record included: no
file was opened for reading or writing. -/
theorem StockPredictor.predict_unknown_algorithm
    (stod : List Char → Option Rat) (fmt : Rat → List Char) (sp : StockPredictor)
    (st : Storage) (symbol algorithm : String)
    (hkey : algorithm ∉ sp.getAvailableAlgorithms) :
    StockPredictor.predict stod fmt sp st symbol algorithm
      = (st, .error Error.UnknownAlgorithm) := by
  rw [StockPredictor.getAvailableAlgorithms_eq_keys] at hkey
  have hnone := (mapFind_eq_none_iff sp.algorithms algorithm).mpr hkey
  simp [StockPredictor.predict, hnone]

/-- Witness of C11: `LSTM` on the default registry, for a symbol with data. -/
theorem StockPredictor.predict_unknown_algorithm_witness :
    StockPredictor.predict stodDecimal sampleFmt samplePredictor sampleStorage "AAPL" "LSTM"
      = (sampleStorage, .error Error.UnknownAlgorithm) :=
  StockPredictor.predict_unknown_algorithm stodDecimal sampleFmt samplePredictor sampleStorage
    "AAPL" "LSTM" (by decide)

/-- C12: when `StockPredictor::predict` fails, every file of the storage has the
content it had before the call (and no path changed from missing to present),
and the error is the one of the step that failed: `UnknownAlgorithm` of the
lookup, the error of `readStockData`, the error of the algorithm, or
`WriteFailed` of `writePredictions`. -/
theorem StockPredictor.failed_predict_keeps_files
    (stod : List Char → Option Rat) (fmt : Rat → List Char) (sp : StockPredictor)
    (st : Storage) (symbol algorithm : String) (e : Error)
    (hfail : (StockPredictor.predict stod fmt sp st symbol algorithm).2 = .error e) :
    (StockPredictor.predict stod fmt sp st symbol algorithm).1.files = st.files ∧
    ((mapFind sp.algorithms algorithm = none ∧ e = Error.UnknownAlgorithm) ∨
     ∃ algo, mapFind sp.algorithms algorithm = some algo ∧
       (FileHandler.readStockData stod st.files sp.dataDirectory symbol = .error e ∨
        ∃ data, FileHandler.readStockData stod st.files sp.dataDirectory symbol = .ok data ∧
          (algo.predict data = .error e ∨
           ∃ predictions, algo.predict data = .ok predictions ∧
             st.canCreate (FileHandler.buildFilePath sp.dataDirectory symbol true) = false ∧
             e = Error.WriteFailed))) := by
  unfold StockPredictor.predict at hfail ⊢
  cases hfind : mapFind sp.algorithms algorithm with
  | none =>
    rw [hfind] at hfail
    simp only [Except.error.injEq] at hfail
    exact ⟨rfl, Or.inl ⟨rfl, hfail.symm⟩⟩
  | some algo =>
    rw [hfind] at hfail
    simp only at hfail ⊢
    cases hread : FileHandler.readStockData stod st.files sp.dataDirectory symbol with
    | error e1 =>
      rw [StockPredictor.predictWith_read_error stod fmt _ algo st symbol e1 hread] at hfail ⊢
      simp only [Except.error.injEq] at hfail
      subst hfail
      exact ⟨rfl, Or.inr ⟨algo, rfl, Or.inl rfl⟩⟩
    | ok data =>
      cases hcompute : algo.predict data with
      | error e1 =>
        rw [StockPredictor.predictWith_compute_error stod fmt _ algo st symbol e1 data hread
          hcompute] at hfail ⊢
        simp only [Except.error.injEq] at hfail
        subst hfail
        exact ⟨rfl, Or.inr ⟨algo, rfl, Or.inr ⟨data, rfl, Or.inl hcompute⟩⟩⟩
      | ok predictions =>
        cases hcreate : st.canCreate (FileHandler.buildFilePath sp.dataDirectory symbol true) with
        | false =>
          rw [StockPredictor.predictWith_write_error stod fmt _ algo st symbol data predictions
            hread hcompute hcreate] at hfail ⊢
          simp only [Except.error.injEq] at hfail
          exact ⟨rfl, Or.inr ⟨algo, rfl, Or.inr ⟨data, rfl,
            Or.inr ⟨predictions, hcompute, rfl, hfail.symm⟩⟩⟩⟩
        | true =>
          rw [StockPredictor.predictWith_ok stod fmt _ algo st symbol data predictions
            hread hcompute hcreate] at hfail
          simp at hfail

/-- Witness of C12: the data file of `OLD` is missing, `predict` fails with
`NotFound`, and the artifact written earlier is still there. -/
theorem StockPredictor.failed_predict_keeps_files_witness :
    ((StockPredictor.predict stodDecimal sampleFmt samplePredictor staleStorage "OLD" "SMA").1.files
        = staleStorage.files ∧
     ((mapFind samplePredictor.algorithms "SMA" = none ∧
          Error.NotFound = Error.UnknownAlgorithm) ∨
      ∃ algo, mapFind samplePredictor.algorithms "SMA" = some algo ∧
        (FileHandler.readStockData stodDecimal staleStorage.files
            samplePredictor.dataDirectory "OLD" = .error Error.NotFound ∨
         ∃ data, FileHandler.readStockData stodDecimal staleStorage.files
            samplePredictor.dataDirectory "OLD" = .ok data ∧
           (algo.predict data = .error Error.NotFound ∨
            ∃ predictions, algo.predict data = .ok predictions ∧
              staleStorage.canCreate
                (FileHandler.buildFilePath samplePredictor.dataDirectory "OLD" true) = false ∧
              Error.NotFound = Error.WriteFailed)))) ∧
    (StockPredictor.predict stodDecimal sampleFmt samplePredictor staleStorage "OLD" "SMA").1.files
        "data/OLD_predictions.csv" = some "Date,Predicted_Close\nYYYY-MM-DD,7\n".data :=
  have h := StockPredictor.failed_predict_keeps_files stodDecimal sampleFmt samplePredictor
    staleStorage "OLD" "SMA" Error.NotFound rfl
  ⟨h, by rw [h.1]; rfl⟩

/-- C13: when `StockPredictor::predict` succeeds, the value returned is the result
of the registered algorithm on the records `readStockData` returns for the
symbol, and the prediction artifact of the symbol afterwards holds the header
`Date,Predicted_Close` and one row for each returned value, in order, the
placeholder date followed by the formatted value; the output stream was
opened on the artifact, so no successful call leaves it unwritten. -/
theorem StockPredictor.successful_predict_writes_artifact
    (stod : List Char → Option Rat) (fmt : Rat → List Char) (sp : StockPredictor)
    (st : Storage) (symbol algorithm : String) (out : List Rat)
    (hok : (StockPredictor.predict stod fmt sp st symbol algorithm).2 = .ok out) :
    (∃ algo data, mapFind sp.algorithms algorithm = some algo ∧
        FileHandler.readStockData stod st.files sp.dataDirectory symbol = .ok data ∧
        algo.predict data = .ok out) ∧
    (StockPredictor.predict stod fmt sp st symbol algorithm).1.files
        (FileHandler.buildFilePath sp.dataDirectory symbol true) = some (artifactOf fmt out) ∧
    Access.openWrite (FileHandler.buildFilePath sp.dataDirectory symbol true)
      ∈ (StockPredictor.predict stod fmt sp st symbol algorithm).1.log := by
  unfold StockPredictor.predict at hok ⊢
  cases hfind : mapFind sp.algorithms algorithm with
  | none =>
    rw [hfind] at hok
    simp at hok
  | some algo =>
    rw [hfind] at hok
    simp only at hok ⊢
    cases hread : FileHandler.readStockData stod st.files sp.dataDirectory symbol with
    | error e1 =>
      rw [StockPredictor.predictWith_read_error stod fmt _ algo st symbol e1 hread] at hok
      simp at hok
    | ok data =>
      cases hcompute : algo.predict data with
      | error e1 =>
        rw [StockPredictor.predictWith_compute_error stod fmt _ algo st symbol e1 data hread
          hcompute] at hok
        simp at hok
      | ok predictions =>
        cases hcreate : st.canCreate (FileHandler.buildFilePath sp.dataDirectory symbol true) with
        | false =>
          rw [StockPredictor.predictWith_write_error stod fmt _ algo st symbol data predictions
            hread hcompute hcreate] at hok
          simp at hok
        | true =>
          rw [StockPredictor.predictWith_ok stod fmt _ algo st symbol data predictions
            hread hcompute hcreate] at hok ⊢
          simp only [Except.ok.injEq] at hok
          subst hok
          refine ⟨⟨algo, data, rfl, rfl, hcompute⟩, ?_, ?_⟩
          · simp [Storage.files]
          · simp

theorem sample_predict_five :
    StockPredictor.predict stodDecimal sampleFmt samplePredictor sampleStorage "AAPL" "SMA"
      = (⟨sampleStorage.resolve,
          fun file => if file
              = sampleStorage.resolve (FileHandler.buildFilePath "data" "AAPL" true)
            then some (artifactOf sampleFmt [3]) else sampleStorage.disk file,
          sampleStorage.canCreate,
          sampleStorage.log ++ [Access.openRead (FileHandler.buildFilePath "data" "AAPL" false)]
            ++ [Access.openWrite (FileHandler.buildFilePath "data" "AAPL" true)]⟩,
         .ok [3]) := by
  have hfind : mapFind samplePredictor.algorithms "SMA" = some (.movingAverage ⟨5⟩) := by decide
  unfold StockPredictor.predict
  rw [hfind]
  exact StockPredictor.predictWith_ok stodDecimal sampleFmt "data" _ sampleStorage "AAPL"
    fiveRecords [3] read_fiveDays movingAverage_five_on_fiveRecords rfl

/-- Witness of C13: the default moving average on the sample storage returns `[3]`
and leaves the header and one row in the artifact of `AAPL`. -/
theorem StockPredictor.successful_predict_writes_artifact_witness :
    ((∃ algo data, mapFind samplePredictor.algorithms "SMA" = some algo ∧
        FileHandler.readStockData stodDecimal sampleStorage.files
          samplePredictor.dataDirectory "AAPL" = .ok data ∧
        algo.predict data = .ok [3]) ∧
     (StockPredictor.predict stodDecimal sampleFmt samplePredictor sampleStorage
          "AAPL" "SMA").1.files
        (FileHandler.buildFilePath samplePredictor.dataDirectory "AAPL" true)
        = some (artifactOf sampleFmt [3]) ∧
     Access.openWrite (FileHandler.buildFilePath samplePredictor.dataDirectory "AAPL" true)
       ∈ (StockPredictor.predict stodDecimal sampleFmt samplePredictor sampleStorage
          "AAPL" "SMA").1.log) ∧
    artifactOf sampleFmt [3] = "Date,Predicted_Close\nYYYY-MM-DD,3\n".data :=
  ⟨StockPredictor.successful_predict_writes_artifact stodDecimal sampleFmt samplePredictor
      sampleStorage "AAPL" "SMA" [3] (by rw [sample_predict_five]),
   by decide⟩

/-! ## Registry -/

theorem mapFind_mapAssign_self (entries : List (String × PredictionAlgorithm)) (key : String)
    (value : PredictionAlgorithm) : mapFind (mapAssign entries key value) key = some value := by
  induction entries with
  | nil => simp [mapAssign, mapFind]
  | cons e rest ih =>
    obtain ⟨k, v⟩ := e
    by_cases h1 : key.data < k.data
    · simp [mapAssign, h1, mapFind]
    · by_cases h2 : key = k
      · simp [mapAssign, h1, h2, mapFind]
      · simp [mapAssign, h1, h2, mapFind, ih]

theorem mapFind_mapAssign_other (entries : List (String × PredictionAlgorithm))
    (key other : String) (value : PredictionAlgorithm) (hne : other ≠ key) :
    mapFind (mapAssign entries key value) other = mapFind entries other := by
  induction entries with
  | nil => simp [mapAssign, mapFind, hne]
  | cons e rest ih =>
    obtain ⟨k, v⟩ := e
    by_cases h1 : key.data < k.data
    · simp [mapAssign, h1, mapFind, hne]
    · by_cases h2 : key = k
      · subst h2
        simp [mapAssign, h1, mapFind, hne]
      · simp [mapAssign, h1, h2, mapFind, ih]

theorem mem_keys_mapAssign (entries : List (String × PredictionAlgorithm)) (key n : String)
    (value : PredictionAlgorithm) :
    n ∈ (mapAssign entries key value).map (fun algo => algo.1)
      ↔ n = key ∨ n ∈ entries.map (fun algo => algo.1) := by
  induction entries with
  | nil => simp [mapAssign]
  | cons e rest ih =>
    obtain ⟨k, v⟩ := e
    by_cases h1 : key.data < k.data
    · simp [mapAssign, h1]
    · by_cases h2 : key = k
      · subst h2
        simp [mapAssign, h1]
      · simp only [mapAssign, h1, h2, if_false, List.map_cons, List.mem_cons, ih]
        tauto

/-- C14: `registerAlgorithm(name, a)` inserts or replaces exactly the entry of
`name`: afterwards the lookup of `name` gives `a` and `predict` under `name`
runs `a` whatever was registered before, the lookup of every other name is
unchanged, and the registered names are the previous ones and `name`. -/
theorem StockPredictor.registerAlgorithm_sets_one_entry
    (stod : List Char → Option Rat) (fmt : Rat → List Char) (sp : StockPredictor)
    (name : String) (a : PredictionAlgorithm) (st : Storage) (symbol : String) :
    mapFind (sp.registerAlgorithm name a).algorithms name = some a ∧
    StockPredictor.predict stod fmt (sp.registerAlgorithm name a) st symbol name
      = StockPredictor.predictWith stod fmt sp.dataDirectory a st symbol ∧
    (∀ other : String, other ≠ name →
      mapFind (sp.registerAlgorithm name a).algorithms other = mapFind sp.algorithms other ∧
      StockPredictor.predict stod fmt (sp.registerAlgorithm name a) st symbol other
        = StockPredictor.predict stod fmt sp st symbol other) ∧
    (∀ n : String, n ∈ (sp.registerAlgorithm name a).getAvailableAlgorithms
      ↔ n = name ∨ n ∈ sp.getAvailableAlgorithms) := by
  have hself := mapFind_mapAssign_self sp.algorithms name a
  refine ⟨hself, ?_, ?_, ?_⟩
  · simp [StockPredictor.predict, StockPredictor.registerAlgorithm, hself]
  · intro other hne
    have hother := mapFind_mapAssign_other sp.algorithms name other a hne
    exact ⟨hother, by simp [StockPredictor.predict, StockPredictor.registerAlgorithm, hother]⟩
  · intro n
    rw [StockPredictor.getAvailableAlgorithms_eq_keys, StockPredictor.getAvailableAlgorithms_eq_keys]
    exact mem_keys_mapAssign sp.algorithms name n a

/-- Witness of C14: after `SMA` is registered again with window 3, `predict` on
the closing prices 1, 2, 3, 4, 5 returns `[2, 3, 4]`; before, with window 5,
it returned `[3]`. -/
theorem StockPredictor.registerAlgorithm_sets_one_entry_witness :
    (StockPredictor.predict stodDecimal sampleFmt
        (samplePredictor.registerAlgorithm "SMA" (.movingAverage ⟨3⟩))
        sampleStorage "AAPL" "SMA").2 = .ok [2, 3, 4] ∧
    (StockPredictor.predict stodDecimal sampleFmt samplePredictor sampleStorage
        "AAPL" "SMA").2 = .ok [3] :=
  ⟨by
    rw [(StockPredictor.registerAlgorithm_sets_one_entry stodDecimal sampleFmt samplePredictor
      "SMA" (.movingAverage ⟨3⟩) sampleStorage "AAPL").2.1]
    exact congrArg Prod.snd
      (StockPredictor.predictWith_ok stodDecimal sampleFmt "data" (.movingAverage ⟨3⟩)
        sampleStorage "AAPL" fiveRecords [2, 3, 4] read_fiveDays
        movingAverage_three_on_fiveRecords rfl),
   by rw [sample_predict_five]⟩

/-- C15: the constructor of `StockPredictor` succeeds for every data directory
and registers exactly two algorithms: `getAvailableAlgorithms` returns `EMA`
and `SMA`, each once, `SMA` is a moving average with window 5 and `EMA` an
exponential moving average with alpha 0.2, and both pass `validate`. -/
theorem StockPredictor.create_registers_defaults (dataDir : String) :
    StockPredictor.create dataDir
      = .ok ⟨dataDir, [("EMA", .exponentialMovingAverage ⟨1 / 5⟩), ("SMA", .movingAverage ⟨5⟩)]⟩ ∧
    (∀ sp, StockPredictor.create dataDir = .ok sp →
      sp.getAvailableAlgorithms = ["EMA", "SMA"] ∧
      mapFind sp.algorithms "SMA" = some (.movingAverage ⟨5⟩) ∧
      mapFind sp.algorithms "EMA" = some (.exponentialMovingAverage ⟨1 / 5⟩)) ∧
    MovingAverageAlgorithm.validate ⟨5⟩ = .ok () ∧
    ExponentialMovingAverageAlgorithm.validate ⟨1 / 5⟩ = .ok () := by
  have h1 : MovingAverageAlgorithm.create 5 = .ok ⟨5⟩ :=
    (MovingAverageAlgorithm.create_window_ok_iff 5 ⟨5⟩).mpr ⟨rfl, by decide, by decide⟩
  have h2 : ExponentialMovingAverageAlgorithm.create (1 / 5) = .ok ⟨1 / 5⟩ :=
    (ExponentialMovingAverageAlgorithm.create_alpha_ok_iff _).mpr (by norm_num)
  have hlt : "EMA".data < "SMA".data := by decide
  have hcreate : StockPredictor.create dataDir
      = .ok ⟨dataDir, [("EMA", .exponentialMovingAverage ⟨1 / 5⟩),
          ("SMA", .movingAverage ⟨5⟩)]⟩ := by
    unfold StockPredictor.create
    rw [h1, h2]
    simp [StockPredictor.registerAlgorithm, mapAssign, hlt]
  refine ⟨hcreate, ?_, (MovingAverageAlgorithm.validate_window_ok_iff _).mpr (by decide),
    (ExponentialMovingAverageAlgorithm.validate_alpha_ok_iff _).mpr (by norm_num)⟩
  intro sp hsp
  rw [hcreate] at hsp
  simp only [Except.ok.injEq] at hsp
  subst hsp
  exact ⟨rfl, rfl, rfl⟩

/-! ## Failed configuration -/

/-- C16: `configure` is not atomic on failure: on a valid moving average a call
with `window_size = v` outside `[2, 200]` fails with `InvalidParameter` and
leaves `v` in the object (`getParameters` reports it), not the valid window
held before; likewise on a valid exponential average a call with `alpha`
outside `[0.0001, 1.0]` fails and leaves that alpha in the object. -/
theorem configure_not_atomic_on_failure
    (a : MovingAverageAlgorithm) (params : Params) (v : Int)
    (b : ExponentialMovingAverageAlgorithm) (params2 : Params) (alpha : Rat)
    (ha : a.validate = .ok ()) (hkey : params.window_size = some v) (hv : v < 2 ∨ v > 200)
    (hb : b.validate = .ok ()) (hkey2 : params2.alpha = some alpha)
    (halpha : alpha < 1 / 10000 ∨ 1 < alpha) :
    ((a.configure params).2 = .error Error.InvalidParameter ∧
      (a.configure params).1.getParameters
        = [("window_size", v), ("min_window", 2), ("max_window", 200)] ∧
      (a.configure params).1.windowSize ≠ a.windowSize ∧
      (a.configure params).1.validate = .error Error.InvalidParameter) ∧
    ((b.configure params2).2 = .error Error.InvalidParameter ∧
      (b.configure params2).1.getParameters
        = [("alpha", alpha), ("min_alpha", 1 / 10000), ("max_alpha", 1)] ∧
      (b.configure params2).1.smoothingFactor ≠ b.smoothingFactor ∧
      (b.configure params2).1.validate = .error Error.InvalidParameter) := by
  have hca : a.configure params = (⟨v⟩, MovingAverageAlgorithm.validate ⟨v⟩) := by
    simp [MovingAverageAlgorithm.configure, hkey]
  have hcb : b.configure params2 = (⟨alpha⟩, ExponentialMovingAverageAlgorithm.validate ⟨alpha⟩) := by
    simp [ExponentialMovingAverageAlgorithm.configure, hkey2]
  have hva : MovingAverageAlgorithm.validate ⟨v⟩ = .error Error.InvalidParameter :=
    (MovingAverageAlgorithm.validate_window_error_iff ⟨v⟩).mpr hv
  have hvb : ExponentialMovingAverageAlgorithm.validate ⟨alpha⟩ = .error Error.InvalidParameter :=
    (ExponentialMovingAverageAlgorithm.validate_alpha_error_iff ⟨alpha⟩).mpr halpha
  have hwa := (MovingAverageAlgorithm.validate_window_ok_iff a).mp ha
  have hwb := (ExponentialMovingAverageAlgorithm.validate_alpha_ok_iff b).mp hb
  rw [hca, hcb]
  refine ⟨⟨hva, rfl, ?_, hva⟩, ⟨hvb, rfl, ?_, hvb⟩⟩
  · intro h
    simp only at h
    omega
  · intro h
    simp only at h
    rw [← h] at hwb
    rcases halpha with h1 | h1
    · exact absurd hwb.1 (not_le.mpr h1)
    · exact absurd hwb.2 (not_le.mpr h1)

/-- Witness of C16: window 1 on the default moving average, alpha 2 on the
default exponential average. -/
theorem configure_not_atomic_on_failure_witness :
    ((MovingAverageAlgorithm.configure ⟨5⟩ ⟨some 1, none⟩).2 = .error Error.InvalidParameter ∧
      (MovingAverageAlgorithm.configure ⟨5⟩ ⟨some 1, none⟩).1.getParameters
        = [("window_size", 1), ("min_window", 2), ("max_window", 200)] ∧
      (MovingAverageAlgorithm.configure ⟨5⟩ ⟨some 1, none⟩).1.windowSize
        ≠ (⟨5⟩ : MovingAverageAlgorithm).windowSize ∧
      (MovingAverageAlgorithm.configure ⟨5⟩ ⟨some 1, none⟩).1.validate
        = .error Error.InvalidParameter) ∧
    ((ExponentialMovingAverageAlgorithm.configure ⟨1 / 5⟩ ⟨none, some 2⟩).2
        = .error Error.InvalidParameter ∧
      (ExponentialMovingAverageAlgorithm.configure ⟨1 / 5⟩ ⟨none, some 2⟩).1.getParameters
        = [("alpha", 2), ("min_alpha", 1 / 10000), ("max_alpha", 1)] ∧
      (ExponentialMovingAverageAlgorithm.configure ⟨1 / 5⟩ ⟨none, some 2⟩).1.smoothingFactor
        ≠ (⟨1 / 5⟩ : ExponentialMovingAverageAlgorithm).smoothingFactor ∧
      (ExponentialMovingAverageAlgorithm.configure ⟨1 / 5⟩ ⟨none, some 2⟩).1.validate
        = .error Error.InvalidParameter) :=
  configure_not_atomic_on_failure ⟨5⟩ ⟨some 1, none⟩ 1 ⟨1 / 5⟩ ⟨none, some 2⟩ 2
    ((MovingAverageAlgorithm.validate_window_ok_iff _).mpr (by decide)) rfl (by decide)
    ((ExponentialMovingAverageAlgorithm.validate_alpha_ok_iff _).mpr (by norm_num)) rfl
    (by norm_num)

/-! ## Range of the forecasts -/

theorem foldl_min_le (cs : List Rat) :
    ∀ init : Rat, cs.foldl min init ≤ init ∧ ∀ c ∈ cs, cs.foldl min init ≤ c := by
  induction cs with
  | nil => intro init; simp
  | cons x xs ih =>
    intro init
    obtain ⟨h1, h2⟩ := ih (min init x)
    simp only [List.foldl_cons, List.mem_cons]
    refine ⟨h1.trans (min_le_left _ _), ?_⟩
    rintro c (rfl | hc)
    · exact h1.trans (min_le_right _ _)
    · exact h2 c hc

theorem le_foldl_max (cs : List Rat) :
    ∀ init : Rat, init ≤ cs.foldl max init ∧ ∀ c ∈ cs, c ≤ cs.foldl max init := by
  induction cs with
  | nil => intro init; simp
  | cons x xs ih =>
    intro init
    obtain ⟨h1, h2⟩ := ih (max init x)
    simp only [List.foldl_cons, List.mem_cons]
    refine ⟨(le_max_left _ _).trans h1, ?_⟩
    rintro c (rfl | hc)
    · exact (le_max_right _ _).trans h1
    · exact h2 c hc

theorem leastOf_le (l : List Rat) (c : Rat) (hc : c ∈ l) : leastOf l ≤ c := by
  cases l with
  | nil => simp at hc
  | cons a as =>
    simp only [leastOf, List.mem_cons] at hc ⊢
    rcases hc with rfl | hc
    · exact (foldl_min_le as c).1
    · exact (foldl_min_le as a).2 c hc

theorem le_greatestOf (l : List Rat) (c : Rat) (hc : c ∈ l) : c ≤ greatestOf l := by
  cases l with
  | nil => simp at hc
  | cons a as =>
    simp only [greatestOf, List.mem_cons] at hc ⊢
    rcases hc with rfl | hc
    · exact (le_foldl_max as c).1
    · exact (le_foldl_max as a).2 c hc

theorem sum_between (l : List Rat) (m M : Rat) (h : ∀ x ∈ l, m ≤ x ∧ x ≤ M) :
    (l.length : Rat) * m ≤ l.sum ∧ l.sum ≤ (l.length : Rat) * M := by
  induction l with
  | nil => simp
  | cons x xs ih =>
    have hx := h x (by simp)
    have hxs := ih (fun y hy => h y (by simp [hy]))
    simp only [List.length_cons, List.sum_cons]
    push_cast
    constructor <;> linarith [hx.1, hx.2, hxs.1, hxs.2]

theorem MovingAverageAlgorithm.predict_sma_values_between (w : Nat) (hw0 : 0 < w) (hw : w < 2 ^ 64)
    (data : List StockData) (out : List Rat)
    (hok : MovingAverageAlgorithm.predict ⟨(w : Int)⟩ data = .ok out) (m M : Rat)
    (hb : ∀ c ∈ closes data, m ≤ c ∧ c ≤ M) :
    ∀ v ∈ out, m ≤ v ∧ v ≤ M := by
  by_cases hN : w ≤ data.length
  · rw [MovingAverageAlgorithm.predict_natCast w hw data hN] at hok
    simp only [Except.ok.injEq] at hok
    subst hok
    intro v hv
    simp only [List.mem_map, List.mem_range'_1] at hv
    obtain ⟨j, hj, rfl⟩ := hv
    have hlen : (List.take w (List.drop (j - w) (closes data))).length = w := by
      simp only [List.length_take, List.length_drop, closes_length]
      omega
    have hmem : ∀ x ∈ List.take w (List.drop (j - w) (closes data)), m ≤ x ∧ x ≤ M :=
      fun x hx => hb x (List.mem_of_mem_drop (List.mem_of_mem_take hx))
    have hsum := sum_between _ m M hmem
    rw [hlen] at hsum
    have hwpos : (0 : Rat) < (w : Rat) := by exact_mod_cast hw0
    constructor
    · rw [le_div_iff₀ hwpos]
      linarith [hsum.1]
    · rw [div_le_iff₀ hwpos]
      linarith [hsum.2]
  · exfalso
    unfold MovingAverageAlgorithm.predict at hok
    simp only [getClosingPrices_eq_closes, toSizeT_natCast w hw, closes_length] at hok
    have hlt : data.length < w := by omega
    simp [hlt] at hok

theorem ExponentialMovingAverageAlgorithm.predictLoop_values_between (alpha : Rat)
    (h0 : 0 ≤ alpha) (h1 : alpha ≤ 1) (m M : Rat) :
    ∀ (rest : List Rat) (ema : Rat) (acc : List Rat),
      (m ≤ ema ∧ ema ≤ M) → (∀ p ∈ rest, m ≤ p ∧ p ≤ M) → (∀ v ∈ acc, m ≤ v ∧ v ≤ M) →
      ∀ v ∈ ExponentialMovingAverageAlgorithm.predictLoop alpha rest ema acc, m ≤ v ∧ v ≤ M := by
  intro rest
  induction rest with
  | nil =>
    intro ema acc _ _ hacc
    simpa [ExponentialMovingAverageAlgorithm.predictLoop] using hacc
  | cons p rest ih =>
    intro ema acc hema hrest hacc
    simp only [ExponentialMovingAverageAlgorithm.predictLoop]
    have hp := hrest p (by simp)
    have hnew : m ≤ alpha * p + (1 - alpha) * ema ∧ alpha * p + (1 - alpha) * ema ≤ M := by
      have h2 : 0 ≤ 1 - alpha := by linarith
      constructor
      · nlinarith [mul_le_mul_of_nonneg_left hp.1 h0, mul_le_mul_of_nonneg_left hema.1 h2]
      · nlinarith [mul_le_mul_of_nonneg_left hp.2 h0, mul_le_mul_of_nonneg_left hema.2 h2]
    apply ih _ _ hnew (fun q hq => hrest q (by simp [hq]))
    intro v hv
    simp only [List.mem_append, List.mem_singleton] at hv
    rcases hv with hv | rfl
    · exact hacc v hv
    · exact hnew

theorem ExponentialMovingAverageAlgorithm.predict_ema_values_between
    (a : ExponentialMovingAverageAlgorithm) (h0 : 0 ≤ a.smoothingFactor)
    (h1 : a.smoothingFactor ≤ 1) (data : List StockData) (out : List Rat)
    (hok : a.predict data = .ok out) (m M : Rat)
    (hb : ∀ c ∈ closes data, m ≤ c ∧ c ≤ M) :
    ∀ v ∈ out, m ≤ v ∧ v ≤ M := by
  unfold ExponentialMovingAverageAlgorithm.predict at hok
  rw [getClosingPrices_eq_closes] at hok
  cases hc : closes data with
  | nil =>
    rw [hc] at hok
    simp at hok
  | cons p0 rest =>
    rw [hc] at hok hb
    simp only [Except.ok.injEq] at hok
    subst hok
    have hp0 := hb p0 (by simp)
    apply ExponentialMovingAverageAlgorithm.predictLoop_values_between _ h0 h1 m M rest p0 [p0]
      hp0 (fun q hq => hb q (by simp [hq]))
    intro v hv
    simp only [List.mem_singleton] at hv
    subst hv
    exact hp0

theorem PredictionAlgorithm.predict_any_values_between (algo : PredictionAlgorithm)
    (data : List StockData) (out : List Rat)
    (hvalid : algo.validate = .ok ()) (hok : algo.predict data = .ok out) (m M : Rat)
    (hb : ∀ c ∈ closes data, m ≤ c ∧ c ≤ M) :
    ∀ v ∈ out, m ≤ v ∧ v ≤ M := by
  cases algo with
  | movingAverage a =>
    obtain ⟨w⟩ := a
    have hw := (MovingAverageAlgorithm.validate_window_ok_iff ⟨w⟩).mp hvalid
    simp only at hw
    obtain ⟨n, rfl⟩ := Int.eq_ofNat_of_zero_le (show (0 : Int) ≤ w by omega)
    exact MovingAverageAlgorithm.predict_sma_values_between n (by omega) (by omega) data out hok m M hb
  | exponentialMovingAverage a =>
    have hα := (ExponentialMovingAverageAlgorithm.validate_alpha_ok_iff a).mp hvalid
    exact ExponentialMovingAverageAlgorithm.predict_ema_values_between a
      (le_trans (by norm_num) hα.1) hα.2 data out hok m M hb

/-- C17: for a validly configured algorithm of either kind (window in `[2, 200]`,
alpha in `[0.0001, 1.0]`) and a series on which `predict` succeeds, every
output value lies between the least and the greatest closing price of the
series; on a series whose closing prices all equal `p` every output is `p`. -/
theorem PredictionAlgorithm.forecasts_within_observed_range (algo : PredictionAlgorithm)
    (data : List StockData) (out : List Rat)
    (hvalid : algo.validate = .ok ()) (hok : algo.predict data = .ok out) :
    (∀ v ∈ out, leastOf (closes data) ≤ v ∧ v ≤ greatestOf (closes data)) ∧
    (∀ p : Rat, (∀ c ∈ closes data, c = p) → ∀ v ∈ out, v = p) := by
  constructor
  · exact PredictionAlgorithm.predict_any_values_between algo data out hvalid hok _ _
      (fun c hc => ⟨leastOf_le _ c hc, le_greatestOf _ c hc⟩)
  · intro p hp v hv
    have h := PredictionAlgorithm.predict_any_values_between algo data out hvalid hok p p
      (fun c hc => by rw [hp c hc]; exact ⟨le_rfl, le_rfl⟩) v hv
    exact le_antisymm h.2 h.1

/-- Witness of C17: the moving average with window 3 and the exponential average
with alpha 1/2 on sample series. -/
theorem PredictionAlgorithm.forecasts_within_observed_range_witness :
    ((∀ v ∈ [2, 3, 4], leastOf (closes (seriesOf [1, 2, 3, 4, 5])) ≤ v ∧
        v ≤ greatestOf (closes (seriesOf [1, 2, 3, 4, 5]))) ∧
      (∀ p : Rat, (∀ c ∈ closes (seriesOf [1, 2, 3, 4, 5]), c = p) →
        ∀ v ∈ [2, 3, 4], v = p)) ∧
    ((∀ v ∈ [10, 15, 45 / 2], leastOf (closes (seriesOf [10, 20, 30])) ≤ v ∧
        v ≤ greatestOf (closes (seriesOf [10, 20, 30]))) ∧
      (∀ p : Rat, (∀ c ∈ closes (seriesOf [10, 20, 30]), c = p) →
        ∀ v ∈ [10, 15, 45 / 2], v = p)) :=
  ⟨PredictionAlgorithm.forecasts_within_observed_range (.movingAverage ⟨3⟩)
      (seriesOf [1, 2, 3, 4, 5]) [2, 3, 4]
      ((MovingAverageAlgorithm.validate_window_ok_iff _).mpr (by decide))
      (by
        simp [PredictionAlgorithm.predict, MovingAverageAlgorithm.predict, seriesOf,
          PredictionAlgorithm.getClosingPrices, toSizeT, MovingAverageAlgorithm.predictLoop,
          accumulate]
        norm_num),
   PredictionAlgorithm.forecasts_within_observed_range (.exponentialMovingAverage ⟨1 / 2⟩)
      (seriesOf [10, 20, 30]) [10, 15, 45 / 2]
      ((ExponentialMovingAverageAlgorithm.validate_alpha_ok_iff _).mpr (by norm_num))
      (by
        simp [PredictionAlgorithm.predict, ExponentialMovingAverageAlgorithm.predict, seriesOf,
          PredictionAlgorithm.getClosingPrices, ExponentialMovingAverageAlgorithm.predictLoop]
        norm_num)⟩

/-! ## Writing predictions and reading data -/

theorem FileHandler.writePredictions_files_other (fmt : Rat → List Char) (st : Storage)
    (dir symbol : String) (values : List Rat) (path : String)
    (hfile : st.resolve path ≠ st.resolve (FileHandler.buildFilePath dir symbol true)) :
    (FileHandler.writePredictions fmt st dir symbol values).1.files path = st.files path := by
  unfold FileHandler.writePredictions
  by_cases hc : st.canCreate (FileHandler.buildFilePath dir symbol true) = true
  · simp [hc, hfile, Storage.files]
  · simp [hc, Storage.files]

theorem StockPredictor.predict_files_other (stod : List Char → Option Rat)
    (fmt : Rat → List Char) (sp : StockPredictor) (st : Storage) (symbol algorithm : String)
    (path : String)
    (hfile : st.resolve path
      ≠ st.resolve (FileHandler.buildFilePath sp.dataDirectory symbol true)) :
    (StockPredictor.predict stod fmt sp st symbol algorithm).1.files path = st.files path := by
  unfold StockPredictor.predict
  cases hfind : mapFind sp.algorithms algorithm with
  | none => rfl
  | some algo =>
    simp only
    cases hread : FileHandler.readStockData stod st.files sp.dataDirectory symbol with
    | error e1 =>
      rw [StockPredictor.predictWith_read_error stod fmt _ algo st symbol e1 hread]
      rfl
    | ok data =>
      cases hcompute : algo.predict data with
      | error e1 =>
        rw [StockPredictor.predictWith_compute_error stod fmt _ algo st symbol e1 data hread
          hcompute]
        rfl
      | ok predictions =>
        cases hcreate : st.canCreate (FileHandler.buildFilePath sp.dataDirectory symbol true) with
        | false =>
          rw [StockPredictor.predictWith_write_error stod fmt _ algo st symbol data predictions
            hread hcompute hcreate]
          rfl
        | true =>
          rw [StockPredictor.predictWith_ok stod fmt _ algo st symbol data predictions
            hread hcompute hcreate]
          simp [Storage.files, hfile]

theorem FileHandler.readStockData_congr (stod : List Char → Option Rat) (fs1 fs2 : FileSystem)
    (dir symbol : String)
    (h : fs1 (FileHandler.buildFilePath dir symbol false)
      = fs2 (FileHandler.buildFilePath dir symbol false)) :
    FileHandler.readStockData stod fs1 dir symbol
      = FileHandler.readStockData stod fs2 dir symbol := by
  unfold FileHandler.readStockData
  rw [h]

/-- Reading an artifact with three rows as if it were a data file: every row
has two fields and is dropped. -/
theorem read_of_sample_artifact (fs : FileSystem) (dir symbol : String)
    (hfile : fs (FileHandler.buildFilePath dir symbol false)
      = some (fileOf ["Date,Predicted_Close".data, "YYYY-MM-DD,2".data, "YYYY-MM-DD,3".data,
          "YYYY-MM-DD,4".data] [])) :
    FileHandler.readStockData stodDecimal fs dir symbol = .ok [] := by
  unfold FileHandler.readStockData
  rw [hfile]
  have hshape : fileOf ["Date,Predicted_Close".data, "YYYY-MM-DD,2".data, "YYYY-MM-DD,3".data,
        "YYYY-MM-DD,4".data] []
      = "Date,Predicted_Close".data ++ '\n' ::
          fileOf ["YYYY-MM-DD,2".data, "YYYY-MM-DD,3".data, "YYYY-MM-DD,4".data] [] := by
    simp [fileOf]
  simp only
  rw [hshape, afterLine_append_delim _ _ _ (by decide),
    FileHandler.readLoop_fileOf stodDecimal symbol [] (by decide) _ [] (by decide)]
  simp [recordOf, splitCSVLine_cons, splitCSVLine_nil, lineOf, afterLine]

/-- C18, refuted as stated: before the write `readStockData` fails with
`NotFound` for the symbol `AAPL_predictions`; after `writePredictions` for
`AAPL` it returns the empty series, read from the artifact of `AAPL`. The
same happens for the symbol `./AAPL_predictions`, whose data file path is
another string that names the artifact of `AAPL`. -/
theorem FileHandler.writePredictions_changes_read_of_artifact :
    FileHandler.readStockData stodDecimal sampleStorage.files "data" "AAPL_predictions"
      = .error Error.NotFound ∧
    FileHandler.readStockData stodDecimal
        (FileHandler.writePredictions sampleFmt sampleStorage "data" "AAPL" [2, 3, 4]).1.files
        "data" "AAPL_predictions"
      = .ok [] ∧
    FileHandler.buildFilePath "data" "AAPL_predictions" false
      = FileHandler.buildFilePath "data" "AAPL" true ∧
    FileHandler.readStockData stodDecimal sampleStorage.files "data" "./AAPL_predictions"
      = .error Error.NotFound ∧
    FileHandler.readStockData stodDecimal
        (FileHandler.writePredictions sampleFmt sampleStorage "data" "AAPL" [2, 3, 4]).1.files
        "data" "./AAPL_predictions"
      = .ok [] ∧
    FileHandler.buildFilePath "data" "./AAPL_predictions" false
      ≠ FileHandler.buildFilePath "data" "AAPL" true :=
  ⟨rfl, read_of_sample_artifact _ _ _ (by decide), by decide,
   rfl, read_of_sample_artifact _ _ _ (by decide), by decide⟩

/-- C18, amended: `writePredictions(s, values)`, and hence any `predict` for `s`,
changes at most the file that is the prediction artifact of `s`: for every
symbol `s'` whose data file is another file, that is, whose data file path
does not resolve to the file the artifact path of `s` resolves to,
`readStockData(s')` returns the same result, or fails the same way, before
and after. -/
theorem FileHandler.writePredictions_keeps_other_reads
    (stod : List Char → Option Rat) (fmt : Rat → List Char) (sp : StockPredictor)
    (st : Storage) (s : String) (values : List Rat) (algorithm : String) (s1 : String)
    (hfile : st.resolve (FileHandler.buildFilePath sp.dataDirectory s1 false)
      ≠ st.resolve (FileHandler.buildFilePath sp.dataDirectory s true)) :
    FileHandler.readStockData stod
        (FileHandler.writePredictions fmt st sp.dataDirectory s values).1.files
        sp.dataDirectory s1
      = FileHandler.readStockData stod st.files sp.dataDirectory s1 ∧
    FileHandler.readStockData stod
        (StockPredictor.predict stod fmt sp st s algorithm).1.files sp.dataDirectory s1
      = FileHandler.readStockData stod st.files sp.dataDirectory s1 :=
  ⟨FileHandler.readStockData_congr stod _ _ _ _
      (FileHandler.writePredictions_files_other fmt st _ s values _ hfile),
   FileHandler.readStockData_congr stod _ _ _ _
      (StockPredictor.predict_files_other stod fmt sp st s algorithm _ hfile)⟩

/-- Witness of C18 (amended): writing the predictions of `AAPL` leaves the series
read for `AAPL` itself as it was, also when the symbol is spelled `./AAPL`. -/
theorem FileHandler.writePredictions_keeps_other_reads_witness :
    (FileHandler.readStockData stodDecimal
        (FileHandler.writePredictions sampleFmt sampleStorage samplePredictor.dataDirectory
          "AAPL" [2, 3, 4]).1.files samplePredictor.dataDirectory "AAPL"
      = FileHandler.readStockData stodDecimal sampleStorage.files
          samplePredictor.dataDirectory "AAPL" ∧
     FileHandler.readStockData stodDecimal
        (StockPredictor.predict stodDecimal sampleFmt samplePredictor sampleStorage
          "AAPL" "SMA").1.files samplePredictor.dataDirectory "AAPL"
      = FileHandler.readStockData stodDecimal sampleStorage.files
          samplePredictor.dataDirectory "AAPL") ∧
    (FileHandler.readStockData stodDecimal
        (FileHandler.writePredictions sampleFmt sampleStorage samplePredictor.dataDirectory
          "AAPL" [2, 3, 4]).1.files samplePredictor.dataDirectory "./AAPL"
      = FileHandler.readStockData stodDecimal sampleStorage.files
          samplePredictor.dataDirectory "./AAPL" ∧
     FileHandler.readStockData stodDecimal
        (StockPredictor.predict stodDecimal sampleFmt samplePredictor sampleStorage
          "AAPL" "SMA").1.files samplePredictor.dataDirectory "./AAPL"
      = FileHandler.readStockData stodDecimal sampleStorage.files
          samplePredictor.dataDirectory "./AAPL") :=
  ⟨FileHandler.writePredictions_keeps_other_reads stodDecimal sampleFmt samplePredictor
      sampleStorage "AAPL" [2, 3, 4] "SMA" "AAPL" (by decide),
   FileHandler.writePredictions_keeps_other_reads stodDecimal sampleFmt samplePredictor
      sampleStorage "AAPL" [2, 3, 4] "SMA" "./AAPL" (by decide)⟩
